import Mathlib

/-!
# Network file share: session protocol, transfer engine and keystream cipher

A shallow embedding of `server.cpp` and `client.cpp`.

* Bytes (`char`) are natural numbers; text constants are the byte values of
  their characters (`str`).
* `size_t` and `uint64_t` counters are natural numbers reduced modulo `2 ^ 64`
  wherever the C++ arithmetic can wrap.
* A socket is the stream of bytes still to arrive, a plan of how many bytes the
  transport hands over at each `recv`, and the bytes sent so far.
* The shared directory is a list of named entries; every filesystem call the
  server makes is recorded in a log.
* Console diagnostics (`std::cout`, `std::cerr`) are not modelled.
-/

namespace FileShare

/-! ## Bytes and text -/

/-- One `char` of a buffer or of a `std::string`, as its unsigned value. -/
abbrev Byte := Nat

/-- The bytes of a text constant. -/
def str (s : String) : List Byte := s.toList.map Char.toNat

/-- Number of values of `size_t` and of `uint64_t` (64-bit target). -/
def WORD : Nat := 2 ^ 64

/-- `const size_t BUF = 4096;` -/
def BUF : Nat := 4096

/-! ## Keystream cipher (`xor_bytes`, identical in both programs) -/

/-- The loop `for (i = 0; i < n; ++i) b[i] ^= key[idx++ % key.size()]`, run on
the bytes of `b` from position `i` on.  `idx` is a `size_t`, so `idx++` wraps
at `2 ^ 64`.  Indexing past the end of `b` is undefined in C++; the model stops
there. -/
def xor_loop (key : List Byte) : Nat → List Byte → Nat → List Byte × Nat
  | 0, b, idx => (b, idx)
  | _ + 1, [], idx => ([], idx)
  | n + 1, x :: b, idx =>
    let r := xor_loop key n b ((idx + 1) % WORD)
    ((x ^^^ key.getD (idx % key.length) 0) :: r.1, r.2)

/-- `xor_bytes(b, n, idx, key)`: returns the buffer and the offset after the
call. -/
def xor_bytes (b : List Byte) (n : Nat) (idx : Nat) (key : List Byte) : List Byte × Nat :=
  if key.isEmpty then (b, idx) else xor_loop key n b idx

/-- The cipher applied to consecutive chunks, whole chunk each time, the offset
of one call handed to the next. -/
def xor_chunks (key : List Byte) : List (List Byte) → Nat → List (List Byte) × Nat
  | [], idx => ([], idx)
  | c :: cs, idx =>
    let r := xor_bytes c c.length idx key
    let rs := xor_chunks key cs r.2
    (r.1 :: rs.1, rs.2)

/-! ## Text helpers of the C++ library -/

/-- Line terminator `'\n'`. -/
def NL : Byte := 10

/-- `std::isspace` in the "C" locale: space, and `\t \n \v \f \r`. -/
def isspace (c : Byte) : Bool := c == 32 || (9 ≤ c && c ≤ 13)

/-- `std::isdigit`. -/
def isdigit (c : Byte) : Bool := 48 ≤ c && c ≤ 57

/-- `s.rfind(p, 0) == 0`: `s` starts with `p`. -/
def starts_with : List Byte → List Byte → Bool
  | [], _ => true
  | _ :: _, [] => false
  | a :: p, b :: s => a == b && starts_with p s

/-- `filename.find("..") != npos`. -/
def has_dotdot : List Byte → Bool
  | a :: b :: t => (a == 46 && b == 46) || has_dotdot (b :: t)
  | _ => false

/-- `filename.find('/') != npos`. -/
def has_slash (f : List Byte) : Bool := f.contains 47

/-- Decimal digits of `n`, most significant first, with recursion budget `f`. -/
def dec_digits : Nat → Nat → List Byte
  | 0, n => [48 + n % 10]
  | f + 1, n => if n < 10 then [48 + n] else dec_digits f (n / 10) ++ [48 + n % 10]

/-- `os << n` for a `uint64_t`: decimal, no padding. -/
def dec (n : Nat) : List Byte := dec_digits n n

/-- Value of a run of decimal digits. -/
def dec_val (ds : List Byte) : Nat := ds.foldl (fun a c => a * 10 + (c - 48)) 0

/-- A `std::istringstream`: the characters not yet extracted and the failbit. -/
structure IStream where
  buf : List Byte
  fail : Bool
deriving DecidableEq, Repr

/-- `iss >> s` for a `std::string` that is empty before the call: skips white
space, takes the characters up to the next white space, sets the failbit when
it takes none.  On a stream that has already failed nothing is extracted. -/
def extract_string (s : IStream) : List Byte × IStream :=
  if s.fail then ([], s)
  else
    let r := s.buf.dropWhile isspace
    let tok := r.takeWhile (fun c => !isspace c)
    (tok, { buf := r.dropWhile (fun c => !isspace c), fail := tok.isEmpty })

/-- Optional sign in front of a number: whether it is `-`, and what follows. -/
def take_sign : List Byte → Bool × List Byte
  | c :: t => if c = 45 then (true, t) else if c = 43 then (false, t) else (false, c :: t)
  | [] => (false, [])

/-- `iss >> v` for a `uint64_t` that is 0 before the call (`num_get`, decimal):
skips white space, takes an optional sign and the digits that follow; no digit,
or a magnitude of `2^64` or more, sets the failbit; a `-` negates modulo
`2^64`, as `strtoull` does.  Characters after the digits stay in the stream. -/
def extract_u64 (s : IStream) : Nat × IStream :=
  if s.fail then (0, s)
  else
    let r := take_sign (s.buf.dropWhile isspace)
    let ds := r.2.takeWhile isdigit
    let rest := r.2.dropWhile isdigit
    if ds.isEmpty then (0, { buf := rest, fail := true })
    else if WORD ≤ dec_val ds then (WORD - 1, { buf := rest, fail := true })
    else ((if r.1 then (WORD - dec_val ds) % WORD else dec_val ds), { buf := rest, fail := false })

/-- `std::stoull(s)`: like `strtoull` in base 10; `none` when it throws
(`invalid_argument` without a digit, `out_of_range` from `2^64` on). -/
def stoull (s : List Byte) : Option Nat :=
  let r := take_sign (s.dropWhile isspace)
  let ds := r.2.takeWhile isdigit
  if ds.isEmpty then none
  else if WORD ≤ dec_val ds then none
  else some (if r.1 then (WORD - dec_val ds) % WORD else dec_val ds)

/-! ## Sockets -/

/-- One end of a connection.  `inp` is what the peer sends from now on until it
closes; `plan` lists, for the coming `recv` calls, how many bytes the transport
has ready at that call (an exhausted plan means: all that is asked for); `out`
is what has been sent; `room` is `none` while the peer reads, `some k` when the
connection breaks after `k` more bytes. -/
structure Sock where
  inp : List Byte
  plan : List Nat
  out : List Byte
  room : Option Nat
deriving DecidableEq, Repr

/-- The number of bytes one `recv` call asking for `n >= 1` bytes may return
while the stream lasts: at least one (the call blocks until then), at most `n`,
otherwise as the head of the plan says. -/
def recv_count (plan : List Nat) (n : Nat) : Nat :=
  match plan with
  | [] => n
  | c :: _ => min n (max 1 c)

/-- `recv(sock, buf, n, 0)`: the bytes placed in `buf` (none: the call returned
`<= 0`) and the socket after the call. -/
def recv (s : Sock) (n : Nat) : List Byte × Sock :=
  (s.inp.take (recv_count s.plan n),
    { s with inp := s.inp.drop (recv_count s.plan n), plan := s.plan.tail })

/-- The loop of `recv_line`, one `recv` of one byte per round, over the bytes
to come and the plan: the line, and the stream and plan left.  A one-byte
`recv` returns the next byte whatever the plan says.  At the end of the stream
the empty line is returned, whatever was read before. -/
def recv_line_loop : List Byte → List Nat → List Byte → List Byte × List Byte × List Nat
  | [], plan, _ => ([], [], plan.tail)
  | c :: rest, plan, acc =>
    if c = NL then (acc, rest, plan.tail) else recv_line_loop rest plan.tail (acc ++ [c])

/-- `recv_line(sock)`. -/
def recv_line (s : Sock) : List Byte × Sock :=
  let r := recv_line_loop s.inp s.plan []
  (r.1, { s with inp := r.2.1, plan := r.2.2 })

/-- `send_all(sock, buf, len)`: every byte goes out while the connection lasts;
when it breaks, the bytes accepted before are out and the result is `false`. -/
def send_all (s : Sock) (buf : List Byte) : Sock × Bool :=
  match s.room with
  | none => ({ s with out := s.out ++ buf }, true)
  | some k =>
    if buf.length ≤ k then ({ s with out := s.out ++ buf, room := some (k - buf.length) }, true)
    else ({ s with out := s.out ++ buf.take k, room := some 0 }, false)

/-- `send_line(sock, line)`. -/
def send_line (s : Sock) (line : List Byte) : Sock × Bool :=
  send_all s (line ++ [NL])

/-- Both programs' configuration, as far as the transfer engine reads it. -/
structure Config where
  xor_mode : Bool
  xor_key : List Byte
deriving DecidableEq, Repr

/-- `if (cfg.xor_mode) xor_bytes(buf, r, xidx, cfg.xor_key)` on the `r` bytes
just read: the bytes and `xidx` afterwards. -/
def cipher (cfg : Config) (chunk : List Byte) (xidx : Nat) : List Byte × Nat :=
  if cfg.xor_mode then xor_bytes chunk chunk.length xidx cfg.xor_key else (chunk, xidx)

/-- The sending loop of `handle_get` and of `do_put`:
`while (in) { in.read(buf, BUF); r = in.gcount(); if (r <= 0) break; cipher;
if (!send_all(...)) return; }` over the bytes `rest` left in the file.  A read
that gets fewer than `BUF` bytes puts the file stream in a failed state, which
ends the loop.  The result says whether every `send_all` succeeded.  The first
argument bounds the number of rounds. -/
def send_body (cfg : Config) : Nat → Sock → List Byte → Nat → Sock × Bool
  | 0, s, _, _ => (s, true)
  | f + 1, s, rest, xidx =>
    if (rest.take BUF).length = 0 then (s, true)
    else
      let x := cipher cfg (rest.take BUF) xidx
      let r := send_all s x.1
      if !r.2 then (r.1, false)
      else if (rest.take BUF).length < BUF then (r.1, true)
      else send_body cfg f r.1 (rest.drop BUF) x.2

/-- The receiving loop of `handle_put` and of `do_get`:
`while (remaining > 0) { to_read = min(remaining, BUF); r = recv(...);
if (r <= 0) return; cipher; out.write(buf, r); remaining -= r; }`.
Returns the socket, everything written to the file, and whether the loop ran to
`remaining == 0`.  `remaining` is a `uint64_t`.  The first argument bounds the
number of rounds. -/
def recv_body (cfg : Config) : Nat → Sock → Nat → Nat → List Byte → Sock × List Byte × Bool
  | 0, s, remaining, _, written => (s, written, decide (remaining = 0))
  | f + 1, s, remaining, xidx, written =>
    if remaining = 0 then (s, written, true)
    else
      let to_read := if remaining > BUF then BUF else remaining
      let r := recv s to_read
      if r.1.length = 0 then (r.2, written, false)
      else
        let x := cipher cfg r.1 xidx
        recv_body cfg f r.2 ((remaining + WORD - r.1.length) % WORD) x.2 (written ++ x.1)

/-! ## The server's world -/

/-- An entry of the shared directory: a regular file with its bytes and whether
it can be opened for reading and for writing, or anything else (a directory, a
socket, ...). -/
inductive Node where
  | regular (content : List Byte) (readable writable : Bool)
  | other
deriving DecidableEq, Repr

/-- The directory `shared_files`: whether it exists, whether new files can be
created in it, and its entries in the order `directory_iterator` yields them.
Filesystem calls do not throw in this model. -/
structure FileSys where
  dir_exists : Bool
  can_create : Bool
  entries : List (List Byte × Node)
deriving DecidableEq, Repr

/-- The filesystem calls of the server, as recorded in the log. -/
inductive FsCall where
  | dir_exists
  | create_directory
  | directory_iterator
  | file_exists (name : List Byte)
  | is_regular_file (name : List Byte)
  | file_size (name : List Byte)
  | open_read (name : List Byte)
  | open_write (name : List Byte)
deriving DecidableEq, Repr

/-- The entry `shared_files/name`, if the directory and the entry exist. -/
def find_entry (fs : FileSys) (name : List Byte) : Option Node :=
  if fs.dir_exists then fs.entries.lookup name else none

/-- `fs::create_directory(SHARED_DIR)`: a new, empty directory. -/
def create_directory (fs : FileSys) : FileSys :=
  { fs with dir_exists := true, entries := [] }

/-- Replaces the node stored under `name`, or appends a new entry. -/
def set_entry (name : List Byte) (node : Node) :
    List (List Byte × Node) → List (List Byte × Node)
  | [] => [(name, node)]
  | (k, v) :: es => if k = name then (k, node) :: es else (k, v) :: set_entry name node es

/-- `std::ofstream out(path, std::ios::binary)`: the filesystem afterwards and
whether the stream is open.  An existing writable regular file is truncated; a
missing one is created when the directory exists and allows it. -/
def open_write (fs : FileSys) (name : List Byte) : FileSys × Bool :=
  match find_entry fs name with
  | some (Node.regular _ readable writable) =>
    if writable then
      ({ fs with entries := set_entry name (Node.regular [] readable true) fs.entries }, true)
    else (fs, false)
  | some Node.other => (fs, false)
  | none =>
    if fs.dir_exists && fs.can_create then
      ({ fs with entries := set_entry name (Node.regular [] true true) fs.entries }, true)
    else (fs, false)

/-- The bytes written through an open `ofstream` end up as the content of the
file. -/
def write_file (fs : FileSys) (name : List Byte) (bytes : List Byte) : FileSys :=
  match find_entry fs name with
  | some (Node.regular _ readable writable) =>
    { fs with entries := set_entry name (Node.regular bytes readable writable) fs.entries }
  | _ => fs

/-- Content of the regular file `name`, if there is one. -/
def file_content (fs : FileSys) (name : List Byte) : Option (List Byte) :=
  match find_entry fs name with
  | some (Node.regular c _ _) => some c
  | _ => none

/-- What one connection's `handle_client` works on: the socket, the shared
directory, the log of filesystem calls, the local flag `authed`, and whether
`close(client_sock)` has been called. -/
structure Server where
  sock : Sock
  fs : FileSys
  log : List FsCall
  authed : Bool
  closed : Bool
deriving DecidableEq, Repr

/-- Sends a line on the server's socket; the result of `send_line`. -/
def Server.send (w : Server) (line : List Byte) : Server × Bool :=
  ({ w with sock := (send_line w.sock line).1 }, (send_line w.sock line).2)

/-- Appends filesystem calls to the log. -/
def Server.note (w : Server) (calls : List FsCall) : Server :=
  { w with log := w.log ++ calls }

/-- The names `handle_list` sends: the entries that are regular files. -/
def regular_names : List (List Byte × Node) → List (List Byte)
  | [] => []
  | (k, Node.regular _ _ _) :: es => k :: regular_names es
  | (_, Node.other) :: es => regular_names es

/-- Sends each line in turn, ignoring the results, as `handle_list` does. -/
def send_lines (s : Sock) : List (List Byte) → Sock
  | [] => s
  | l :: ls => send_lines (send_line s l).1 ls

/-- `handle_list(client_sock)`. -/
def handle_list (w : Server) : Server :=
  let w1 := (w.send (str "OK")).1.note [FsCall.dir_exists]
  let w2 :=
    if w1.fs.dir_exists then
      { w1.note [FsCall.directory_iterator] with
        sock := send_lines w1.sock (regular_names w1.fs.entries) }
    else w1
  (w2.send (str "END")).1

/-- `handle_get(client_sock, filename)`. -/
def handle_get (cfg : Config) (w : Server) (filename : List Byte) : Server :=
  if has_slash filename || has_dotdot filename then (w.send (str "ERR invalid filename")).1
  else
    match find_entry w.fs filename with
    | none => ((w.note [FsCall.file_exists filename]).send (str "ERR not found")).1
    | some Node.other =>
      ((w.note [FsCall.file_exists filename, FsCall.is_regular_file filename]).send
        (str "ERR not found")).1
    | some (Node.regular content readable _) =>
      let w1 := w.note [FsCall.file_exists filename, FsCall.is_regular_file filename,
        FsCall.file_size filename]
      let h := w1.send (str "OK " ++ dec (content.length % WORD))
      if !h.2 then h.1
      else
        let w2 := h.1.note [FsCall.open_read filename]
        if !readable then (w2.send (str "ERR open failed")).1
        else { w2 with sock := (send_body cfg (content.length + 1) w2.sock content 0).1 }

/-- `handle_put(client_sock, filename, size)`. -/
def handle_put (cfg : Config) (w : Server) (filename : List Byte) (size : Nat) : Server :=
  if filename.isEmpty then (w.send (str "ERR no filename")).1
  else if has_slash filename || has_dotdot filename then
    (w.send (str "ERR invalid filename")).1
  else
    let w1 :=
      if w.fs.dir_exists then w.note [FsCall.dir_exists]
      else { w.note [FsCall.dir_exists, FsCall.create_directory] with
             fs := create_directory w.fs }
    let ready := w1.send (str "OK")
    if !ready.2 then ready.1
    else
      let o := open_write ready.1.fs filename
      let w2 := { ready.1.note [FsCall.open_write filename] with fs := o.1 }
      if !o.2 then (w2.send (str "ERR cannot create")).1
      else
        let r := recv_body cfg size w2.sock size 0 []
        let w3 := { w2 with sock := r.1, fs := write_file w2.fs filename r.2.1 }
        if !r.2.2 then w3 else (w3.send (str "OK")).1

/-- The credential store `users`: `lookup` is `users.count(u)` and `users[u]`. -/
abbrev Users := List (List Byte × List Byte)

/-- One round of the `while (true)` loop of `handle_client`: the world after
the round and whether the loop goes on (`false`: `break`). -/
def handle_line (users : Users) (cfg : Config) (w : Server) : Server × Bool :=
  let l := recv_line w.sock
  let w0 := { w with sock := l.2 }
  if l.1.isEmpty then (w0, false)
  else
    let c := extract_string { buf := l.1, fail := false }
    if c.1 = str "AUTH" then
      let u := extract_string c.2
      let p := extract_string u.2
      if users.lookup u.1 = some p.1 then
        ((({ w0 with authed := true } : Server).send (str "OK")).1, true)
      else ((w0.send (str "ERR invalid credentials")).1, true)
    else if !w0.authed then ((w0.send (str "ERR not authenticated")).1, true)
    else if c.1 = str "LIST" then (handle_list w0, true)
    else if c.1 = str "GET" then
      let f := extract_string c.2
      if f.1.isEmpty then ((w0.send (str "ERR No filename")).1, true)
      else (handle_get cfg w0 f.1, true)
    else if c.1 = str "PUT" then
      let f := extract_string c.2
      let n := extract_u64 f.2
      if n.2.fail || f.1.isEmpty then ((w0.send (str "ERR bad header")).1, true)
      else (handle_put cfg w0 f.1 n.1, true)
    else if c.1 = str "QUIT" then (w0, false)
    else if c.1 = str "SELECT" then
      let f := extract_string c.2
      if f.1.isEmpty then ((w0.send (str "ERR No filename provided")).1, true)
      else ((w0.send (str "OK Selected " ++ f.1)).1, true)
    else ((w0.send (str "ERR unknown")).1, true)

/-- `handle_client(client_sock)`: rounds until one breaks out of the loop, then
`close(client_sock)`.  The first argument bounds the number of rounds; every
round that goes on has taken a line from the stream. -/
def handle_client (users : Users) (cfg : Config) : Nat → Server → Server
  | 0, w => w
  | f + 1, w =>
    let r := handle_line users cfg w
    if r.2 then handle_client users cfg f r.1 else { r.1 with closed := true }

/-- `load_users()` on the lines of `users.txt`: a line without `:` is skipped,
otherwise `users[before] = after`, a later line replacing an earlier one with
the same name. -/
def load_users : List (List Byte) → Users → Users
  | [], users => users
  | line :: lines, users =>
    if line.isEmpty then load_users lines users
    else if line.contains 58 then
      load_users lines
        ((line.takeWhile (fun c => c != 58), (line.dropWhile (fun c => c != 58)).drop 1) ::
          users.filter (fun e => e.1 != line.takeWhile (fun c => c != 58)))
    else load_users lines users

/-! ## The client -/

/-- `do_auth(sock, user, pass)`. -/
def do_auth (s : Sock) (user pass : List Byte) : Sock × Bool :=
  let r := send_line s (str "AUTH " ++ user ++ str " " ++ pass)
  if !r.2 then (r.1, false)
  else
    let resp := recv_line r.1
    (resp.2, starts_with (str "OK") resp.1)

/-- The loop of `do_list`: lines are collected until `END` or an empty read.
The first argument bounds the number of rounds. -/
def list_loop : Nat → Sock → List (List Byte) → Sock × List (List Byte)
  | 0, s, files => (s, files)
  | f + 1, s, files =>
    let l := recv_line s
    if l.1 = str "END" || l.1.isEmpty then (l.2, files) else list_loop f l.2 (files ++ [l.1])

/-- `do_list(sock, files)`: the socket, `files` afterwards, and the result. -/
def do_list (s : Sock) (files : List (List Byte)) : Sock × List (List Byte) × Bool :=
  let r := send_line s (str "LIST")
  if !r.2 then (r.1, files, false)
  else
    let status := recv_line r.1
    if !starts_with (str "OK") status.1 then (status.2, files, false)
    else
      let c := list_loop (status.2.inp.length + 1) status.2 []
      (c.1, c.2, true)

/-- What `do_get` leaves behind: the socket, the content of `save_as` if the
function opened it, and the result. -/
structure GetResult where
  sock : Sock
  saved : Option (List Byte)
  ok : Bool
deriving DecidableEq, Repr

/-- `do_get(sock, filename, save_as)`; `can_open` says whether `save_as` can be
opened for writing.  `none`: `std::stoull` threw, which nothing catches. -/
def do_get (cfg : Config) (s : Sock) (filename : List Byte) (can_open : Bool) :
    Option GetResult :=
  let r := send_line s (str "GET " ++ filename)
  if !r.2 then some ⟨r.1, none, false⟩
  else
    let hdr := recv_line r.1
    if !starts_with (str "OK ") hdr.1 then some ⟨hdr.2, none, false⟩
    else
      match stoull (hdr.1.drop 3) with
      | none => none
      | some size =>
        if !can_open then some ⟨hdr.2, none, false⟩
        else
          let b := recv_body cfg size hdr.2 size 0 []
          some ⟨b.1, some b.2.1, b.2.2⟩

/-- `do_put(sock, local_path, remote_name)`; `local_file` is the content of
`local_path` when that is an existing regular file, `can_open` says whether it
can be opened for reading. -/
def do_put (cfg : Config) (s : Sock) (local_file : Option (List Byte)) (can_open : Bool)
    (remote_name : List Byte) : Sock × Bool :=
  match local_file with
  | none => (s, false)
  | some content =>
    let r := send_line s (str "PUT " ++ remote_name ++ str " " ++ dec (content.length % WORD))
    if !r.2 then (r.1, false)
    else
      let ready := recv_line r.1
      if !starts_with (str "OK") ready.1 then (ready.2, false)
      else if !can_open then (ready.2, false)
      else
        let b := send_body cfg (content.length + 1) ready.2 content 0
        if !b.2 then (b.1, false)
        else
          let done := recv_line b.1
          (done.2, starts_with (str "OK") done.1)

/-! ## Vocabulary of the claims -/

/-- The command token `handle_client` extracts from a line (`iss >> cmd`). -/
def command_of (line : List Byte) : List Byte :=
  (extract_string { buf := line, fail := false }).1

/-- The stream after the command token has been extracted. -/
def after_command (line : List Byte) : IStream :=
  (extract_string { buf := line, fail := false }).2

/-- The first argument of a line: the token after the command. -/
def arg1_of (line : List Byte) : List Byte :=
  (extract_string (after_command line)).1

/-- The second argument of a line, extracted as a string (`AUTH`). -/
def arg2_of (line : List Byte) : List Byte :=
  (extract_string (extract_string (after_command line)).2).1

/-- What `iss >> filename >> size` yields for the size of a `PUT` line: the
value and the stream with its failbit. -/
def size_of (line : List Byte) : Nat × IStream :=
  extract_u64 (extract_string (after_command line)).2

/-- The text a `PUT` line offers as its size: what follows the filename and
the white space after it. -/
def size_text (line : List Byte) : List Byte :=
  (extract_string (after_command line)).2.buf.dropWhile isspace

/-- A size text that is not a number of 64 bits: after an optional sign there
is no digit, or the digits denote `2^64` or more. -/
def SizeRejected (t : List Byte) : Prop :=
  (take_sign t).2.takeWhile isdigit = [] ∨ WORD ≤ dec_val ((take_sign t).2.takeWhile isdigit)

/-- The world after a round that took one line from the stream and did nothing
but send the one line `msg`. -/
def reply (w : Server) (msg : List Byte) : Server :=
  { w with sock := (send_line (recv_line w.sock).2 msg).1 }

/-- The world after a round that took one line from the stream and did nothing
else. -/
def silent (w : Server) : Server :=
  { w with sock := (recv_line w.sock).2 }

/-- A token: no white space in it. -/
def IsToken (t : List Byte) : Prop := ∀ c ∈ t, isspace c = false

instance (t : List Byte) : Decidable (IsToken t) := by
  unfold IsToken
  infer_instance

/-- A name the path-safety rule rejects. -/
def BadPath (f : List Byte) : Prop := has_slash f = true ∨ has_dotdot f = true

/-- The directory as `handle_put` finds it after its own
`if (!fs::exists(SHARED_DIR)) fs::create_directory(SHARED_DIR)`. -/
def ensured (fs : FileSys) : FileSys :=
  if fs.dir_exists then fs else create_directory fs

/-- Whether a file stored under `name` can be written and read back: there is
no entry of that name and files can be created, or the entry is a regular file
open to reading and writing. -/
def can_store (fs : FileSys) (name : List Byte) : Bool :=
  match find_entry (ensured fs) name with
  | none => (ensured fs).can_create
  | some (Node.regular _ readable writable) => readable && writable
  | some Node.other => false

/-- A connection just opened, with a peer that stays connected: the bytes it
will send and the transport's plan. -/
def fresh (inp : List Byte) (plan : List Nat) : Sock :=
  { inp := inp, plan := plan, out := [], room := none }

/-- One upload followed by one download of the same name, each on its own
connection, every run fed with what its peer sends:
* `up`: `do_put` of the local file `b`, reading the server's two `OK` lines;
* `stored`: the server's round on the bytes `up` sent, in an Authenticated
  session over the directory `fs`;
* `served`: the server's round on the client's `GET` line, on a new
  connection in an Authenticated session over the directory `stored` left;
* `down`: `do_get` reading what `served` sent.
The plans `p1 .. p4` are the ways the transport cuts the four streams.  The
round trip holds when the upload and the download succeed, each run's input is
its peer's output, every stream is read to its end, the stored file is `b`
and the file `do_get` writes is `b`. -/
def RoundTrip (users : Users) (cfg : Config) (b name : List Byte) (fs : FileSys)
    (p1 p2 p3 p4 : List Nat) : Prop :=
  let up := do_put cfg (fresh (str "OK\nOK\n") p1) (some b) true name
  let stored := handle_line users cfg ⟨fresh up.1.out p2, fs, [], true, false⟩
  let served := handle_line users cfg
    ⟨fresh (str "GET " ++ name ++ [NL]) p3, stored.1.fs, [], true, false⟩
  let down := do_get cfg (fresh served.1.sock.out p4) name true
  up.2 = true ∧ up.1.inp = [] ∧
  stored.1.sock.out = str "OK\nOK\n" ∧ stored.1.sock.inp = [] ∧
  file_content stored.1.fs name = some b ∧
  served.1.sock.inp = [] ∧
  ∃ g, down = some g ∧ g.ok = true ∧ g.saved = some b ∧
    g.sock.out = str "GET " ++ name ++ [NL] ∧ g.sock.inp = []

/-- The receiving loop `recv_body` with a record of its rounds: for every
`recv` call the value of `remaining` before it, the count `to_read` asked for
and the count `r` returned. -/
def recv_body_log (cfg : Config) :
    Nat → Sock → Nat → Nat → List Byte → (Sock × List Byte × Bool) × List (Nat × Nat × Nat)
  | 0, s, remaining, _, written => ((s, written, decide (remaining = 0)), [])
  | f + 1, s, remaining, xidx, written =>
    if remaining = 0 then ((s, written, true), [])
    else
      let to_read := if remaining > BUF then BUF else remaining
      let r := recv s to_read
      if r.1.length = 0 then ((r.2, written, false), [(remaining, to_read, 0)])
      else
        let x := cipher cfg r.1 xidx
        let t := recv_body_log cfg f r.2 ((remaining + WORD - r.1.length) % WORD) x.2
          (written ++ x.1)
        (t.1, (remaining, to_read, r.1.length) :: t.2)

/-- The world `handle_client` starts from: `bool authed = false;` on a
connection that is open. -/
def session_start (sock : Sock) (fs : FileSys) (log : List FsCall) : Server :=
  { sock := sock, fs := fs, log := log, authed := false, closed := false }

/-- The lines the rounds of `handle_client` read, in order, the last one
included (the empty line of a closed connection, or `QUIT`). -/
def lines_read (users : Users) (cfg : Config) : Nat → Server → List (List Byte)
  | 0, _ => []
  | f + 1, w =>
    (recv_line w.sock).1 ::
      (if (handle_line users cfg w).2 then lines_read users cfg f (handle_line users cfg w).1
       else [])

/-- An `AUTH` line that carries a user found in the store with the stored
password. -/
def good_auth (users : Users) (line : List Byte) : Bool :=
  !line.isEmpty && decide (command_of line = str "AUTH") &&
    decide (users.lookup (arg1_of line) = some (arg2_of line))

/-- The bytes `handle_list` puts on the wire for file names: one line each. -/
def name_lines (names : List (List Byte)) : List Byte :=
  (names.map (fun n => n ++ [NL])).flatten

/-- A file name `do_list` can take from a listing: not empty, not `END`, no
line terminator in it. -/
def Listable (n : List Byte) : Prop := n ≠ [] ∧ n ≠ str "END" ∧ ∀ c ∈ n, c ≠ NL

instance (n : List Byte) : Decidable (Listable n) := by
  unfold Listable
  infer_instance

/-- `fs::is_regular_file` on an entry. -/
def is_regular : Node → Bool
  | Node.regular _ _ _ => true
  | Node.other => false

/-- The server's complete reply to the line `LIST` on a fresh connection of an
Authenticated session over the directory `fs`. -/
def list_reply (users : Users) (cfg : Config) (fs : FileSys) (plan : List Nat) : List Byte :=
  (handle_line users cfg ⟨fresh (str "LIST" ++ [NL]) plan, fs, [], true, false⟩).1.sock.out

/-- The cipher as the specification words it, with unbounded offsets: byte `i`
below `n` is combined with `key[(idx + i) mod len(key)]`, bytes from `n` on are
kept, and the new offset is `idx + n`; an empty key changes nothing. -/
def XorReference (b : List Byte) (n idx : Nat) (key : List Byte) (r : List Byte × Nat) : Prop :=
  if key.isEmpty then r = (b, idx)
  else (∀ i, i < n → r.1[i]? = some (b.getD i 0 ^^^ key.getD ((idx + i) % key.length) 0)) ∧
    (∀ i, n ≤ i → r.1[i]? = b[i]?) ∧ r.2 = idx + n

/-! ## Cipher lemmas -/

theorem xor_loop_append (key : List Byte) (b1 b2 : List Byte) (idx : Nat) :
    xor_loop key (b1 ++ b2).length (b1 ++ b2) idx =
      ((xor_loop key b1.length b1 idx).1 ++
          (xor_loop key b2.length b2 (xor_loop key b1.length b1 idx).2).1,
        (xor_loop key b2.length b2 (xor_loop key b1.length b1 idx).2).2) := by
  induction b1 generalizing idx with
  | nil => simp [xor_loop]
  | cons x b1 ih =>
    have h := ih ((idx + 1) % WORD)
    show ((x ^^^ key.getD (idx % key.length) 0) ::
          (xor_loop key (b1 ++ b2).length (b1 ++ b2) ((idx + 1) % WORD)).1,
        (xor_loop key (b1 ++ b2).length (b1 ++ b2) ((idx + 1) % WORD)).2) = _
    rw [h]
    simp [xor_loop]

theorem xor_bytes_append (key : List Byte) (b1 b2 : List Byte) (idx : Nat) :
    xor_bytes (b1 ++ b2) (b1 ++ b2).length idx key =
      ((xor_bytes b1 b1.length idx key).1 ++
          (xor_bytes b2 b2.length (xor_bytes b1 b1.length idx key).2 key).1,
        (xor_bytes b2 b2.length (xor_bytes b1 b1.length idx key).2 key).2) := by
  unfold xor_bytes
  by_cases hk : key.isEmpty = true
  · simp [hk]
  · simp only [hk, if_false, Bool.false_eq_true]
    exact xor_loop_append key b1 b2 idx

theorem xor_chunks_flatten (key : List Byte) (chunks : List (List Byte)) (idx : Nat) :
    ((xor_chunks key chunks idx).1.flatten, (xor_chunks key chunks idx).2) =
      xor_bytes chunks.flatten chunks.flatten.length idx key := by
  induction chunks generalizing idx with
  | nil => simp [xor_chunks, xor_bytes, xor_loop]
  | cons c cs ih =>
    simp only [xor_chunks, List.flatten_cons]
    rw [xor_bytes_append, ← ih]

theorem xor_loop_length (key : List Byte) (b : List Byte) (idx : Nat) :
    (xor_loop key b.length b idx).1.length = b.length := by
  induction b generalizing idx with
  | nil => simp [xor_loop]
  | cons x b ih => simp [xor_loop, ih]

theorem xor_bytes_length (key : List Byte) (b : List Byte) (idx : Nat) :
    (xor_bytes b b.length idx key).1.length = b.length := by
  unfold xor_bytes
  split
  · rfl
  · exact xor_loop_length key b idx

theorem xor_loop_involutive (key : List Byte) (b : List Byte) (idx : Nat) :
    (xor_loop key b.length (xor_loop key b.length b idx).1 idx).1 = b := by
  induction b generalizing idx with
  | nil => simp [xor_loop]
  | cons x b ih =>
    have h := ih ((idx + 1) % WORD)
    have hl := xor_loop_length key b ((idx + 1) % WORD)
    simp only [List.length_cons, xor_loop]
    rw [Nat.xor_cancel_right]
    congr 1

theorem xor_bytes_involutive (key : List Byte) (b : List Byte) (idx : Nat) :
    (xor_bytes (xor_bytes b b.length idx key).1 b.length idx key).1 = b := by
  unfold xor_bytes
  by_cases hk : key.isEmpty = true
  · simp [hk]
  · simp only [hk, if_false, Bool.false_eq_true]
    exact xor_loop_involutive key b idx

theorem xor_loop_offset (key : List Byte) (n : Nat) (b : List Byte) (idx : Nat)
    (hn : n ≤ b.length) (hidx : idx < WORD) :
    (xor_loop key n b idx).2 = (idx + n) % WORD := by
  induction n generalizing b idx with
  | zero => simp [xor_loop, Nat.mod_eq_of_lt hidx]
  | succ n ih =>
    cases b with
    | nil => simp at hn
    | cons x b =>
      have hw : 0 < WORD := by decide
      simp only [xor_loop]
      rw [ih b ((idx + 1) % WORD) (by simpa using hn) (Nat.mod_lt _ hw)]
      rw [Nat.mod_add_mod]
      congr 1
      omega

theorem xor_loop_below (key : List Byte) (n : Nat) (b : List Byte) (idx : Nat)
    (hn : n ≤ b.length) (hidx : idx < WORD) (i : Nat) (hi : i < n) :
    (xor_loop key n b idx).1[i]? =
      some (b.getD i 0 ^^^ key.getD (((idx + i) % WORD) % key.length) 0) := by
  induction n generalizing b idx i with
  | zero => omega
  | succ n ih =>
    cases b with
    | nil => simp at hn
    | cons x b =>
      have hw : 0 < WORD := by decide
      simp only [xor_loop]
      cases i with
      | zero => simp [Nat.mod_eq_of_lt hidx]
      | succ j =>
        simp only [List.getElem?_cons_succ, List.getD_cons_succ]
        rw [ih b ((idx + 1) % WORD) (by simpa using hn) (Nat.mod_lt _ hw) j (by omega)]
        rw [Nat.mod_add_mod]
        have e : idx + 1 + j = idx + (j + 1) := by omega
        rw [e]

theorem xor_loop_above (key : List Byte) (n : Nat) (b : List Byte) (idx : Nat)
    (i : Nat) (hi : n ≤ i) :
    (xor_loop key n b idx).1[i]? = b[i]? := by
  induction n generalizing b idx i with
  | zero => simp [xor_loop]
  | succ n ih =>
    cases b with
    | nil => simp [xor_loop]
    | cons x b =>
      simp only [xor_loop]
      cases i with
      | zero => omega
      | succ j =>
        simp only [List.getElem?_cons_succ]
        exact ih b _ j (by omega)

/-! ## Lemmas about lines and tokens -/

theorem recv_line_loop_line (line rest : List Byte) (plan : List Nat) (acc : List Byte)
    (h : ∀ c ∈ line, c ≠ NL) :
    recv_line_loop (line ++ NL :: rest) plan acc =
      (acc ++ line, rest, plan.drop (line.length + 1)) := by
  induction line generalizing plan acc with
  | nil => cases plan <;> simp [recv_line_loop]
  | cons c line ih =>
    have hc : c ≠ NL := h c (by simp)
    have ih2 := ih plan.tail (acc ++ [c]) (fun d hd => h d (by simp [hd]))
    show (if c = NL then (acc, line ++ NL :: rest, plan.tail)
      else recv_line_loop (line ++ NL :: rest) plan.tail (acc ++ [c])) = _
    rw [if_neg hc, ih2]
    cases plan <;> simp

theorem recv_line_line (s : Sock) (line rest : List Byte) (h : ∀ c ∈ line, c ≠ NL)
    (hs : s.inp = line ++ NL :: rest) :
    (recv_line s).1 = line ∧ (recv_line s).2.inp = rest ∧ (recv_line s).2.out = s.out ∧
      (recv_line s).2.room = s.room := by
  simp [recv_line, hs, recv_line_loop_line line rest s.plan [] h]

theorem recv_line_out (s : Sock) : (recv_line s).2.out = s.out ∧ (recv_line s).2.room = s.room := by
  simp [recv_line]

theorem send_all_open (s : Sock) (buf : List Byte) (h : s.room = none) :
    send_all s buf = ({ s with out := s.out ++ buf }, true) := by
  simp [send_all, h]

theorem send_line_open (s : Sock) (line : List Byte) (h : s.room = none) :
    send_line s line = ({ s with out := s.out ++ (line ++ [NL]) }, true) := by
  simp [send_line, send_all_open s _ h]

theorem reply_out (w : Server) (msg : List Byte) (h : w.sock.room = none) :
    (reply w msg).sock.out = w.sock.out ++ (msg ++ [NL]) := by
  have h2 : (recv_line w.sock).2.room = none := by rw [(recv_line_out w.sock).2, h]
  simp [reply, send_line_open _ _ h2, (recv_line_out w.sock).1]

theorem send_all_inp (s : Sock) (buf : List Byte) :
    (send_all s buf).1.inp = s.inp ∧ (send_all s buf).1.plan = s.plan := by
  unfold send_all
  cases s.room with
  | none => exact ⟨rfl, rfl⟩
  | some k =>
    by_cases h : buf.length ≤ k
    · simp [h]
    · simp [h]

theorem reply_inp (w : Server) (msg : List Byte) :
    (reply w msg).sock.inp = (recv_line w.sock).2.inp :=
  (send_all_inp (recv_line w.sock).2 (msg ++ [NL])).1

theorem recv_line_eq (line rest : List Byte) (plan : List Nat) (out : List Byte)
    (room : Option Nat) (h : ∀ c ∈ line, c ≠ NL) :
    recv_line ⟨line ++ NL :: rest, plan, out, room⟩ =
      (line, ⟨rest, plan.drop (line.length + 1), out, room⟩) := by
  simp [recv_line, recv_line_loop_line line rest plan [] h]

theorem send_line_eq (inp : List Byte) (plan : List Nat) (out line : List Byte) :
    send_line ⟨inp, plan, out, none⟩ line = (⟨inp, plan, out ++ (line ++ [NL]), none⟩, true) := by
  simp [send_line, send_all]

theorem token_not_nl (t : List Byte) (h : IsToken t) : ∀ c ∈ t, c ≠ NL := by
  intro c hc e
  have := h c hc
  rw [e] at this
  exact absurd this (by decide)

theorem take_token (t r : List Byte) (ht : IsToken t)
    (hr : r = [] ∨ ∃ c r1, r = c :: r1 ∧ isspace c = true) :
    (t ++ r).takeWhile (fun c => !isspace c) = t ∧
      (t ++ r).dropWhile (fun c => !isspace c) = r := by
  have hp : ∀ a ∈ t, (fun c => !isspace c) a = true := fun a ha => by simp [ht a ha]
  rw [List.takeWhile_append_of_pos hp, List.dropWhile_append_of_pos hp]
  rcases hr with rfl | ⟨c, r1, rfl, hc⟩
  · simp
  · simp [List.takeWhile_cons, List.dropWhile_cons, hc]

theorem skip_none (t r : List Byte) (ht : IsToken t) (hne : t ≠ []) :
    (t ++ r).dropWhile isspace = t ++ r := by
  cases t with
  | nil => exact absurd rfl hne
  | cons c t => simp [List.dropWhile_cons, ht c (by simp)]

theorem skip_token (t : List Byte) (ht : IsToken t) : t.dropWhile isspace = t := by
  cases t with
  | nil => rfl
  | cons c t => simp [List.dropWhile_cons, ht c (by simp)]

theorem take_whole_token (t : List Byte) (ht : IsToken t) :
    t.takeWhile (fun c => !isspace c) = t ∧ t.dropWhile (fun c => !isspace c) = [] := by
  have := take_token t [] ht (Or.inl rfl)
  simpa using this

theorem str_AUTH : str "AUTH " = [65, 85, 84, 72, 32] := by decide

theorem str_space : str " " = [32] := by decide

theorem do_auth_wire (cin : List Byte) (cplan : List Nat) (user pass : List Byte) :
    (do_auth ⟨cin, cplan, [], none⟩ user pass).1.out =
      str "AUTH " ++ user ++ str " " ++ pass ++ [NL] := by
  simp [do_auth, send_line, send_all, recv_line]

theorem auth_line_tokens (user pass : List Byte) (hu : IsToken user) (hne : user ≠ [])
    (hp : IsToken pass) :
    command_of (str "AUTH " ++ user ++ str " " ++ pass) = str "AUTH" ∧
      arg1_of (str "AUTH " ++ user ++ str " " ++ pass) = user ∧
      arg2_of (str "AUTH " ++ user ++ str " " ++ pass) = pass := by
  have h1 := take_token user (32 :: pass) hu (Or.inr ⟨32, pass, rfl, by decide⟩)
  have h2 := skip_none user (32 :: pass) hu hne
  have h3 := skip_token pass hp
  have h4 := take_whole_token pass hp
  have e : str "AUTH" = [65, 85, 84, 72] := by decide
  have hc : command_of (str "AUTH " ++ user ++ str " " ++ pass) = str "AUTH" := by
    simp [command_of, extract_string, str_AUTH, str_space, List.takeWhile_cons,
      List.dropWhile_cons, isspace, e]
  have ha : after_command (str "AUTH " ++ user ++ str " " ++ pass) =
      { buf := 32 :: (user ++ 32 :: pass), fail := false } := by
    simp [after_command, extract_string, str_AUTH, str_space, List.takeWhile_cons,
      List.dropWhile_cons, isspace]
  have hd : (32 :: (user ++ 32 :: pass)).dropWhile isspace = user ++ 32 :: pass := by
    rw [List.dropWhile_cons]
    simp only [show isspace 32 = true by decide, if_true]
    exact h2
  have hemp : user.isEmpty = false := by cases user <;> simp_all
  refine ⟨hc, ?_, ?_⟩
  · simp only [arg1_of, ha, extract_string, Bool.false_eq_true, if_false, hd, h1.1]
  · simp only [arg2_of, ha, extract_string, Bool.false_eq_true, if_false, hd, h1.1, h1.2, hemp]
    rw [List.dropWhile_cons]
    simp only [show isspace 32 = true by decide, if_true, h3, h4.1]

/-! ## Lemmas about decimal numbers -/

theorem dec_val_snoc (a : List Byte) (c : Byte) : dec_val (a ++ [c]) = dec_val a * 10 + (c - 48) := by
  simp [dec_val, List.foldl_append]

theorem dec_val_dec_digits (f n : Nat) (h : n < 10 ^ (f + 1)) : dec_val (dec_digits f n) = n := by
  induction f generalizing n with
  | zero =>
    have h10 : n < 10 := by simpa using h
    simp [dec_digits, dec_val, Nat.mod_eq_of_lt h10]
  | succ f ih =>
    by_cases h10 : n < 10
    · simp [dec_digits, h10, dec_val]
    · have hd : n / 10 < 10 ^ (f + 1) := by
        rw [Nat.div_lt_iff_lt_mul (by decide)]
        calc n < 10 ^ (f + 1 + 1) := h
          _ = 10 ^ (f + 1) * 10 := by rw [pow_succ]
      simp only [dec_digits, h10, if_false]
      rw [dec_val_snoc, ih (n / 10) hd]
      omega

theorem dec_digits_digits (f n : Nat) : ∀ c ∈ dec_digits f n, isdigit c = true := by
  induction f generalizing n with
  | zero =>
    intro c hc
    simp only [dec_digits, List.mem_singleton] at hc
    subst hc
    simp only [isdigit, Bool.and_eq_true, decide_eq_true_eq]
    unfold Byte
    omega
  | succ f ih =>
    intro c hc
    by_cases h10 : n < 10
    · simp only [dec_digits, h10, if_true, List.mem_singleton] at hc
      subst hc
      simp only [isdigit, Bool.and_eq_true, decide_eq_true_eq]
      unfold Byte
      omega
    · simp only [dec_digits, h10, if_false, List.mem_append, List.mem_singleton] at hc
      rcases hc with hc | hc
      · exact ih (n / 10) c hc
      · subst hc
        simp only [isdigit, Bool.and_eq_true, decide_eq_true_eq]
        unfold Byte
        omega

theorem dec_digits_ne_nil (f n : Nat) : dec_digits f n ≠ [] := by
  cases f with
  | zero => simp [dec_digits]
  | succ f =>
    by_cases h10 : n < 10
    · simp [dec_digits, h10]
    · simp [dec_digits, h10]

theorem dec_val_dec (n : Nat) : dec_val (dec n) = n := by
  apply dec_val_dec_digits
  calc n < 10 ^ n := Nat.lt_pow_self (by decide) n
    _ ≤ 10 ^ (n + 1) := Nat.pow_le_pow_right (by decide) (Nat.le_succ n)

theorem digit_facts (c : Byte) (h : isdigit c = true) :
    isspace c = false ∧ c ≠ 45 ∧ c ≠ 43 ∧ c ≠ NL := by
  simp only [isdigit, Bool.and_eq_true, decide_eq_true_eq] at h
  refine ⟨?_, ?_, ?_, ?_⟩
  · simp only [isspace, Bool.or_eq_false_iff, Bool.and_eq_false_iff, beq_eq_false_iff_ne,
      decide_eq_false_iff_not]
    unfold Byte at *
    omega
  · unfold Byte at *
    omega
  · unfold Byte at *
    omega
  · simp only [NL]
    unfold Byte at *
    omega

theorem dec_token (n : Nat) : IsToken (dec n) :=
  fun c hc => (digit_facts c (dec_digits_digits n n c hc)).1

theorem number_text (ds : List Byte) (hd : ∀ c ∈ ds, isdigit c = true) (hne : ds ≠ []) :
    take_sign (ds.dropWhile isspace) = (false, ds) ∧ ds.takeWhile isdigit = ds ∧
      ds.dropWhile isdigit = [] := by
  have hs : ds.dropWhile isspace = ds :=
    skip_token ds (fun c hc => (digit_facts c (hd c hc)).1)
  refine ⟨?_, List.takeWhile_eq_self_iff.2 hd, List.dropWhile_eq_nil_iff.2 hd⟩
  rw [hs]
  cases ds with
  | nil => exact absurd rfl hne
  | cons c t =>
    have hc := digit_facts c (hd c (by simp))
    simp [take_sign, hc.2.1, hc.2.2.1]

theorem stoull_dec (n : Nat) (h : n < WORD) : stoull (dec n) = some n := by
  obtain ⟨h1, h2, -⟩ := number_text (dec n) (dec_digits_digits n n) (dec_digits_ne_nil n n)
  have he : (dec n).isEmpty = false := by
    cases hh : dec n with
    | nil => exact absurd hh (dec_digits_ne_nil n n)
    | cons a l => rfl
  simp only [stoull, h1, h2, he, Bool.false_eq_true, if_false, dec_val_dec, Nat.not_le.2 h]

theorem extract_u64_dec (n : Nat) (h : n < WORD) :
    extract_u64 { buf := 32 :: dec n, fail := false } = (n, { buf := [], fail := false }) := by
  obtain ⟨h1, h2, h3⟩ := number_text (dec n) (dec_digits_digits n n) (dec_digits_ne_nil n n)
  have he : (dec n).isEmpty = false := by
    cases hh : dec n with
    | nil => exact absurd hh (dec_digits_ne_nil n n)
    | cons a l => rfl
  have hd : (32 :: dec n).dropWhile isspace = (dec n).dropWhile isspace := by
    rw [List.dropWhile_cons]
    simp only [show isspace 32 = true by decide, if_true]
  simp only [extract_u64, Bool.false_eq_true, if_false, hd, h1, h2, h3, he, dec_val_dec,
    Nat.not_le.2 h]

/-! ## Lemmas about the transfer loops -/

theorem cipher_nil (cfg : Config) (i : Nat) : cipher cfg [] i = ([], i) := by
  unfold cipher xor_bytes
  by_cases h1 : cfg.xor_mode = true <;> by_cases h2 : cfg.xor_key.isEmpty = true <;>
    simp [h1, h2, xor_loop]

theorem cipher_append (cfg : Config) (a b : List Byte) (i : Nat) :
    cipher cfg (a ++ b) i =
      ((cipher cfg a i).1 ++ (cipher cfg b (cipher cfg a i).2).1,
        (cipher cfg b (cipher cfg a i).2).2) := by
  unfold cipher
  by_cases h1 : cfg.xor_mode = true
  · simp only [h1, if_true]
    exact xor_bytes_append cfg.xor_key a b i
  · simp [h1]

theorem cipher_involutive (cfg : Config) (b : List Byte) (i : Nat) :
    (cipher cfg (cipher cfg b i).1 i).1 = b := by
  unfold cipher
  by_cases h1 : cfg.xor_mode = true
  · simp only [h1, if_true]
    rw [xor_bytes_length]
    exact xor_bytes_involutive cfg.xor_key b i
  · simp [h1]

theorem cipher_length (cfg : Config) (b : List Byte) (i : Nat) :
    (cipher cfg b i).1.length = b.length := by
  unfold cipher
  by_cases h1 : cfg.xor_mode = true
  · simp only [h1, if_true]
    exact xor_bytes_length cfg.xor_key b i
  · simp [h1]

theorem cipher_take_drop (cfg : Config) (k : Nat) (b : List Byte) (i : Nat) :
    (cipher cfg (b.take k) i).1 ++ (cipher cfg (b.drop k) (cipher cfg (b.take k) i).2).1 =
      (cipher cfg b i).1 := by
  have h := cipher_append cfg (b.take k) (b.drop k) i
  rw [List.take_append_drop] at h
  rw [h]

theorem send_body_open (cfg : Config) (fuel : Nat) (s : Sock) (content : List Byte) (xidx : Nat)
    (hroom : s.room = none) (hf : content.length < fuel) :
    send_body cfg fuel s content xidx =
      ({ s with out := s.out ++ (cipher cfg content xidx).1 }, true) := by
  induction fuel generalizing s content xidx with
  | zero => omega
  | succ f ih =>
    have hB : BUF = 4096 := rfl
    unfold send_body
    by_cases h0 : (content.take BUF).length = 0
    · have hc : content = [] := by
        cases content with
        | nil => rfl
        | cons a l => simp [hB] at h0
      subst hc
      simp [cipher_nil]
    · simp only [h0, if_false]
      rw [send_all_open s _ hroom]
      simp only [Bool.not_true, Bool.false_eq_true, if_false]
      by_cases h1 : (content.take BUF).length < BUF
      · have hc : content.take BUF = content := by
          apply List.take_of_length_le
          rw [List.length_take] at h1
          omega
        rw [hc] at h1
        simp only [hc, h1, if_true]
      · simp only [h1, if_false]
        have hlen : (content.drop BUF).length < f := by
          rw [List.length_take] at h1
          rw [List.length_drop]
          omega
        rw [ih { s with out := s.out ++ (cipher cfg (content.take BUF) xidx).1 }
          (content.drop BUF) _ hroom hlen]
        simp only [List.append_assoc, cipher_take_drop]

theorem recv_count_bounds (plan : List Nat) (n : Nat) (h : 1 ≤ n) :
    1 ≤ recv_count plan n ∧ recv_count plan n ≤ n := by
  cases plan with
  | nil => exact ⟨h, Nat.le_refl n⟩
  | cons c t =>
    simp only [recv_count]
    omega

theorem recv_body_exact (cfg : Config) (fuel : Nat) (s : Sock) (remaining xidx : Nat)
    (written body rest : List Byte) (hs : s.inp = body ++ rest) (hb : body.length = remaining)
    (hf : remaining ≤ fuel) (hw : remaining < WORD) :
    ∃ plan, recv_body cfg fuel s remaining xidx written =
      ({ s with inp := rest, plan := plan }, written ++ (cipher cfg body xidx).1, true) := by
  induction fuel generalizing s remaining xidx written body with
  | zero =>
    have h0 : remaining = 0 := by omega
    subst h0
    have hbody : body = [] := List.length_eq_zero.1 hb
    subst hbody
    refine ⟨s.plan, ?_⟩
    have hr : s.inp = rest := by simpa using hs
    simp [recv_body, cipher_nil, ← hr]
  | succ f ih =>
    by_cases h0 : remaining = 0
    · subst h0
      have hbody : body = [] := List.length_eq_zero.1 hb
      subst hbody
      refine ⟨s.plan, ?_⟩
      have hr : s.inp = rest := by simpa using hs
      simp [recv_body, cipher_nil, ← hr]
    · have hB : BUF = 4096 := rfl
      have hW : WORD = 18446744073709551616 := by decide
      obtain ⟨k1, k2⟩ := recv_count_bounds s.plan (if remaining > BUF then BUF else remaining)
        (by split <;> omega)
      have k3 : recv_count s.plan (if remaining > BUF then BUF else remaining) ≤ body.length := by
        rw [hb]
        refine Nat.le_trans k2 ?_
        split <;> omega
      generalize hk : recv_count s.plan (if remaining > BUF then BUF else remaining) = k at k1 k2 k3
      have htake : (recv s (if remaining > BUF then BUF else remaining)).1 = body.take k := by
        simp only [recv, hk, hs]
        exact List.take_append_of_le_length k3
      have hrest : (recv s (if remaining > BUF then BUF else remaining)).2 =
          { s with inp := body.drop k ++ rest, plan := s.plan.tail } := by
        simp only [recv, hk, hs]
        rw [List.drop_append_of_le_length k3]
      have hl : (body.take k).length = k := by
        rw [List.length_take]; omega
      have hne : ¬ (body.take k).length = 0 := by omega
      have hrem : (remaining + WORD - k) % WORD = remaining - k := by
        have e : remaining + WORD - k = (remaining - k) + WORD := by omega
        rw [e, Nat.add_mod_right, Nat.mod_eq_of_lt (by omega)]
      obtain ⟨plan, hp⟩ := ih { s with inp := body.drop k ++ rest, plan := s.plan.tail }
        (remaining - k) (cipher cfg (body.take k) xidx).2
        (written ++ (cipher cfg (body.take k) xidx).1) (body.drop k) rfl
        (by rw [List.length_drop]; omega) (by omega) (by omega)
      refine ⟨plan, ?_⟩
      unfold recv_body
      simp only [h0, if_false, htake, hrest, hne, hl, hrem]
      rw [hp]
      have hk0 : ¬ k = 0 := by omega
      simp only [List.append_assoc, cipher_take_drop, hk0, if_false]

/-! ## Lemmas about the shared directory -/

theorem lookup_set_entry (name : List Byte) (node : Node) (es : List (List Byte × Node)) :
    (set_entry name node es).lookup name = some node := by
  induction es with
  | nil => simp [set_entry, List.lookup]
  | cons e es ih =>
    obtain ⟨k, v⟩ := e
    by_cases hk : k = name
    · subst hk
      simp [set_entry, List.lookup]
    · have hk2 : (name == k) = false := by
        simp only [beq_eq_false_iff_ne, ne_eq]
        exact fun e => hk e.symm
      simp only [set_entry, hk, if_false, List.lookup, hk2]
      exact ih

theorem store_and_find (fs : FileSys) (name bytes : List Byte) (h : can_store fs name = true) :
    (open_write (ensured fs) name).2 = true ∧
      ∃ wr, find_entry (write_file (open_write (ensured fs) name).1 name bytes) name =
        some (Node.regular bytes true wr) := by
  have hd : (ensured fs).dir_exists = true := by
    unfold ensured
    by_cases hx : fs.dir_exists = true
    · simp [hx]
    · simp [hx, create_directory]
  unfold can_store at h
  generalize ensured fs = g at h hd
  cases hf : find_entry g name with
  | none =>
    rw [hf] at h
    have hc : g.can_create = true := h
    have e1 : open_write g name =
        ({ g with entries := set_entry name (Node.regular [] true true) g.entries }, true) := by
      simp [open_write, hf, hd, hc]
    rw [e1]
    refine ⟨rfl, true, ?_⟩
    simp [write_file, find_entry, hd, lookup_set_entry]
  | some node =>
    rw [hf] at h
    cases node with
    | other => simp at h
    | regular c r wr =>
      simp only [Bool.and_eq_true] at h
      obtain ⟨hr, hwr⟩ := h
      subst hr
      subst hwr
      have e1 : open_write g name =
          ({ g with entries := set_entry name (Node.regular [] true true) g.entries }, true) := by
        simp [open_write, hf]
      rw [e1]
      refine ⟨rfl, true, ?_⟩
      simp [write_file, find_entry, hd, lookup_set_entry]

/-! ## Lemmas about whole commands -/

theorem command_line (cmd r : List Byte) (hc : IsToken cmd) (hne : cmd ≠ []) :
    command_of (cmd ++ 32 :: r) = cmd ∧
      after_command (cmd ++ 32 :: r) = { buf := 32 :: r, fail := false } := by
  have h1 := take_token cmd (32 :: r) hc (Or.inr ⟨32, r, rfl, by decide⟩)
  have h2 := skip_none cmd (32 :: r) hc hne
  have he : cmd.isEmpty = false := by cases cmd <;> simp_all
  constructor
  · simp only [command_of, extract_string, Bool.false_eq_true, if_false, h2, h1.1]
  · simp only [after_command, extract_string, Bool.false_eq_true, if_false, h2, h1.1, h1.2, he]

theorem first_argument (cmd a r : List Byte) (hc : IsToken cmd) (hne : cmd ≠ [])
    (ha : IsToken a) (hane : a ≠ []) :
    arg1_of (cmd ++ 32 :: (a ++ 32 :: r)) = a ∧
      (extract_string (after_command (cmd ++ 32 :: (a ++ 32 :: r)))).2 =
        { buf := 32 :: r, fail := false } := by
  have h0 := (command_line cmd (a ++ 32 :: r) hc hne).2
  have h1 := take_token a (32 :: r) ha (Or.inr ⟨32, r, rfl, by decide⟩)
  have h2 := skip_none a (32 :: r) ha hane
  have he : a.isEmpty = false := by cases a <;> simp_all
  have hd : (32 :: (a ++ 32 :: r)).dropWhile isspace = a ++ 32 :: r := by
    rw [List.dropWhile_cons]
    simp only [show isspace 32 = true by decide, if_true]
    exact h2
  constructor
  · simp only [arg1_of, h0, extract_string, Bool.false_eq_true, if_false, hd, h1.1]
  · simp only [h0, extract_string, Bool.false_eq_true, if_false, hd, h1.1, h1.2, he]

theorem only_argument (cmd a : List Byte) (hc : IsToken cmd) (hne : cmd ≠ [])
    (ha : IsToken a) :
    arg1_of (cmd ++ 32 :: a) = a := by
  have h0 := (command_line cmd a hc hne).2
  have h1 := take_whole_token a ha
  have h2 := skip_token a ha
  have hd : (32 :: a).dropWhile isspace = a := by
    rw [List.dropWhile_cons]
    simp only [show isspace 32 = true by decide, if_true]
    exact h2
  simp only [arg1_of, h0, extract_string, Bool.false_eq_true, if_false, hd, h1.1]

theorem put_line_eq (name : List Byte) (n : Nat) :
    str "PUT " ++ name ++ str " " ++ dec n = str "PUT" ++ 32 :: (name ++ 32 :: dec n) := by
  have e1 : str "PUT " = str "PUT" ++ [32] := by decide
  rw [e1, str_space]
  simp

theorem get_line_eq (name : List Byte) : str "GET " ++ name = str "GET" ++ 32 :: name := by
  have e1 : str "GET " = str "GET" ++ [32] := by decide
  rw [e1]
  simp

theorem put_line_no_nl (name : List Byte) (n : Nat) (hn : IsToken name) :
    ∀ c ∈ str "PUT " ++ name ++ str " " ++ dec n, c ≠ NL := by
  intro c hc
  simp only [List.mem_append] at hc
  rcases hc with ((hc | hc) | hc) | hc
  · exact (by decide : ∀ c ∈ str "PUT ", c ≠ NL) c hc
  · exact token_not_nl name hn c hc
  · exact (by decide : ∀ c ∈ str " ", c ≠ NL) c hc
  · exact token_not_nl (dec n) (dec_token n) c hc

theorem get_line_no_nl (name : List Byte) (hn : IsToken name) :
    ∀ c ∈ str "GET " ++ name, c ≠ NL := by
  intro c hc
  simp only [List.mem_append] at hc
  rcases hc with hc | hc
  · exact (by decide : ∀ c ∈ str "GET ", c ≠ NL) c hc
  · exact token_not_nl name hn c hc

theorem handle_line_put (users : Users) (cfg : Config) (w : Server) (name tail : List Byte)
    (n : Nat) (hauth : w.authed = true) (hn : IsToken name) (hne : name ≠ []) (hw : n < WORD)
    (hin : w.sock.inp = str "PUT " ++ name ++ str " " ++ dec n ++ NL :: tail) :
    handle_line users cfg w = (handle_put cfg (silent w) name n, true) ∧
      (silent w).sock.inp = tail ∧ (silent w).sock.out = w.sock.out ∧
      (silent w).sock.room = w.sock.room := by
  obtain ⟨r1, r2, r3, r4⟩ := recv_line_line w.sock _ tail (put_line_no_nl name n hn) hin
  have hP : IsToken (str "PUT") := by decide
  have hPne : str "PUT" ≠ [] := by decide
  have t1 := (command_line (str "PUT") (name ++ 32 :: dec n) hP hPne).1
  obtain ⟨t2, t3⟩ := first_argument (str "PUT") name (dec n) hP hPne hn hne
  have t4 := extract_u64_dec n hw
  rw [← put_line_eq] at t1 t2 t3
  have hnonempty : (str "PUT " ++ name ++ str " " ++ dec n).isEmpty = false := by
    rw [put_line_eq]; rfl
  have he : name.isEmpty = false := by cases name <;> simp_all
  refine ⟨?_, r2, r3, r4⟩
  unfold command_of at t1
  unfold arg1_of after_command at t2
  unfold after_command at t3
  simp only [handle_line, r1, hnonempty, Bool.false_eq_true, if_false, t1, hauth,
    Bool.not_true, t2, t3, t4, he, Bool.or_false, silent]
  simp only [show ¬ (str "PUT" = str "AUTH") by decide,
    show ¬ (str "PUT" = str "LIST") by decide, show ¬ (str "PUT" = str "GET") by decide,
    if_false, if_true]

theorem handle_line_get (users : Users) (cfg : Config) (w : Server) (name tail : List Byte)
    (hauth : w.authed = true) (hn : IsToken name) (hne : name ≠ [])
    (hin : w.sock.inp = str "GET " ++ name ++ NL :: tail) :
    handle_line users cfg w = (handle_get cfg (silent w) name, true) ∧
      (silent w).sock.inp = tail ∧ (silent w).sock.out = w.sock.out ∧
      (silent w).sock.room = w.sock.room := by
  obtain ⟨r1, r2, r3, r4⟩ := recv_line_line w.sock _ tail (get_line_no_nl name hn) hin
  have hP : IsToken (str "GET") := by decide
  have hPne : str "GET" ≠ [] := by decide
  have t1 := (command_line (str "GET") name hP hPne).1
  have t2 := only_argument (str "GET") name hP hPne hn
  rw [← get_line_eq] at t1 t2
  have hnonempty : (str "GET " ++ name).isEmpty = false := by
    rw [get_line_eq]; rfl
  have he : name.isEmpty = false := by cases name <;> simp_all
  refine ⟨?_, r2, r3, r4⟩
  unfold command_of at t1
  unfold arg1_of after_command at t2
  simp only [handle_line, r1, hnonempty, Bool.false_eq_true, if_false, t1, hauth,
    Bool.not_true, t2, he, silent]
  simp only [show ¬ (str "GET" = str "AUTH") by decide,
    show ¬ (str "GET" = str "LIST") by decide, if_false, if_true]

theorem handle_put_stores (cfg : Config) (w : Server) (name body rest : List Byte) (size : Nat)
    (hne : name ≠ []) (hsl : has_slash name = false) (hdd : has_dotdot name = false)
    (hroom : w.sock.room = none) (hs : w.sock.inp = body ++ rest) (hb : body.length = size)
    (hw : size < WORD) (hfs : can_store w.fs name = true) :
    (handle_put cfg w name size).sock.out = w.sock.out ++ (str "OK" ++ [NL]) ++ (str "OK" ++ [NL]) ∧
    (handle_put cfg w name size).sock.inp = rest ∧
    ∃ wr, find_entry (handle_put cfg w name size).fs name =
      some (Node.regular (cipher cfg body 0).1 true wr) := by
  have he : name.isEmpty = false := by cases name <;> simp_all
  obtain ⟨ho, wr, hfind⟩ := store_and_find w.fs name (cipher cfg body 0).1 hfs
  obtain ⟨plan, hp⟩ := recv_body_exact cfg size
    ⟨w.sock.inp, w.sock.plan, w.sock.out ++ (str "OK" ++ [NL]), none⟩ size 0 [] body rest hs hb
    (Nat.le_refl size) hw
  simp only [List.nil_append] at hp
  have key : handle_put cfg w name size =
      { sock := { inp := rest, plan := plan,
                  out := w.sock.out ++ (str "OK" ++ [NL]) ++ (str "OK" ++ [NL]), room := none },
        fs := write_file (open_write (ensured w.fs) name).1 name (cipher cfg body 0).1,
        log := w.log ++ (if w.fs.dir_exists then [FsCall.dir_exists]
          else [FsCall.dir_exists, FsCall.create_directory]) ++ [FsCall.open_write name],
        authed := w.authed, closed := w.closed } := by
    by_cases hd : w.fs.dir_exists = true
    · have hens : ensured w.fs = w.fs := by simp [ensured, hd]
      rw [hens] at ho ⊢
      simp only [handle_put, he, hsl, hdd, hd, Bool.false_eq_true, if_false, if_true,
        Bool.or_false, Server.send, Server.note, send_line_open _ _ hroom, Bool.not_true, ho, hp,
        List.nil_append, hroom, List.append_assoc, send_line_eq]
    · have hens : ensured w.fs = create_directory w.fs := by simp [ensured, hd]
      rw [hens] at ho ⊢
      simp only [handle_put, he, hsl, hdd, hd, Bool.false_eq_true, if_false, if_true,
        Bool.or_false, Server.send, Server.note, send_line_open _ _ hroom, Bool.not_true, ho, hp,
        List.nil_append, hroom, List.append_assoc, send_line_eq]
  rw [key]
  exact ⟨rfl, rfl, wr, hfind⟩

theorem handle_get_streams (cfg : Config) (w : Server) (name content : List Byte) (wr : Bool)
    (hsl : has_slash name = false) (hdd : has_dotdot name = false)
    (hroom : w.sock.room = none)
    (hfile : find_entry w.fs name = some (Node.regular content true wr))
    (hlen : content.length < WORD) :
    (handle_get cfg w name).sock.out =
      w.sock.out ++ (str "OK " ++ dec content.length ++ [NL]) ++ (cipher cfg content 0).1 ∧
    (handle_get cfg w name).sock.inp = w.sock.inp := by
  have hm : content.length % WORD = content.length := Nat.mod_eq_of_lt hlen
  have hb := send_body_open cfg (content.length + 1)
    { w.sock with out := w.sock.out ++ (str "OK " ++ dec content.length ++ [NL]) } content 0
    hroom (Nat.lt_succ_self _)
  have key : handle_get cfg w name =
      { w with
        sock := { w.sock with
          out := w.sock.out ++ (str "OK " ++ dec content.length ++ [NL]) ++
            (cipher cfg content 0).1 },
        log := w.log ++ [FsCall.file_exists name, FsCall.is_regular_file name,
          FsCall.file_size name] ++ [FsCall.open_read name] } := by
    simp only [handle_get, hsl, hdd, Bool.or_false, Bool.false_eq_true, if_false, hfile,
      Server.send, Server.note, send_line_open _ _ hroom, Bool.not_true, hm, hb]
  rw [key]
  exact ⟨rfl, rfl⟩

theorem do_put_sends (cfg : Config) (p1 : List Nat) (b name : List Byte)
    (hlen : b.length < WORD) :
    do_put cfg (fresh (str "OK\nOK\n") p1) (some b) true name =
      (⟨[], (p1.drop 3).drop 3,
        str "PUT " ++ name ++ str " " ++ dec b.length ++ [NL] ++ (cipher cfg b 0).1, none⟩,
        true) := by
  have hm : b.length % WORD = b.length := Nat.mod_eq_of_lt hlen
  have hok : ∀ x ∈ str "OK", x ≠ NL := by decide
  have e1 : str "OK\nOK\n" = str "OK" ++ NL :: (str "OK" ++ NL :: []) := by decide
  have hsw : starts_with (str "OK") (str "OK") = true := by decide
  have h2 : (str "OK").length + 1 = 3 := by decide
  have hb := fun (i : List Byte) (p : List Nat) (o : List Byte) =>
    send_body_open cfg (b.length + 1) ⟨i, p, o, none⟩ b 0 rfl (Nat.lt_succ_self _)
  simp only [do_put, fresh, hm, send_line_eq, e1, recv_line_eq _ _ _ _ _ hok, hsw, hb, h2,
    Bool.not_true, Bool.false_eq_true, if_false, List.nil_append]

theorem do_get_saves (cfg : Config) (p4 : List Nat) (name body : List Byte)
    (hlen : body.length < WORD) :
    ∃ plan, do_get cfg (fresh (str "OK " ++ dec body.length ++ [NL] ++ body) p4) name true =
      some ⟨⟨[], plan, str "GET " ++ name ++ [NL], none⟩, some (cipher cfg body 0).1, true⟩ := by
  have hnl : ∀ x ∈ str "OK " ++ dec body.length, x ≠ NL := by
    intro x hx
    simp only [List.mem_append] at hx
    rcases hx with hx | hx
    · exact (by decide : ∀ c ∈ str "OK ", c ≠ NL) x hx
    · exact token_not_nl _ (dec_token _) x hx
  have e3 : str "OK " = [79, 75, 32] := by decide
  have hsw : starts_with (str "OK ") (str "OK " ++ dec body.length) = true := by
    rw [e3]; simp [starts_with]
  have hdrop : (str "OK " ++ dec body.length).drop 3 = dec body.length := by
    rw [e3]; rfl
  have hin : str "OK " ++ dec body.length ++ [NL] ++ body =
      (str "OK " ++ dec body.length) ++ NL :: body := by simp
  obtain ⟨plan, hp⟩ := recv_body_exact cfg body.length
    ⟨body, p4.drop ((str "OK " ++ dec body.length).length + 1), str "GET " ++ name ++ [NL], none⟩
    body.length 0 [] body [] (by simp) rfl (Nat.le_refl _) hlen
  refine ⟨plan, ?_⟩
  simp only [List.nil_append] at hp
  simp only [do_get, fresh, send_line_eq, hin, recv_line_eq _ _ _ _ _ hnl, hsw, hdrop,
    stoull_dec _ hlen, hp, Bool.not_true, Bool.false_eq_true, if_false, List.nil_append]

/-! ## The end-to-end claim -/

/-- C1: for every key (and for no key), every byte sequence `b` (shorter than
`2^64`, as a file size is) and every way the transport cuts the streams into
`recv` chunks, when `do_put` uploads `b` to a server with the same
configuration and `do_get` then fetches the file on a fresh connection, the
file `handle_put` stored is exactly `b` and the bytes `do_get` writes are
exactly `b`.  The name is a non-empty token that passes the path-safety rule,
the directory lets the file be written and read back, and every peer stays
connected. -/
theorem round_trip (users : Users) (cfg : Config) (b name : List Byte) (fs : FileSys)
    (p1 p2 p3 p4 : List Nat) (hlen : b.length < WORD) (hn : IsToken name) (hne : name ≠ [])
    (hsl : has_slash name = false) (hdd : has_dotdot name = false)
    (hfs : can_store fs name = true) :
    RoundTrip users cfg b name fs p1 p2 p3 p4 := by
  have hcl := cipher_length cfg b 0
  have hinv := cipher_involutive cfg b 0
  -- the upload, client side
  have hup := do_put_sends cfg p1 b name hlen
  -- the upload, server side
  obtain ⟨k1, k2, k3, k4⟩ := handle_line_put users cfg
    ⟨fresh (str "PUT " ++ name ++ str " " ++ dec b.length ++ [NL] ++ (cipher cfg b 0).1) p2,
      fs, [], true, false⟩ name (cipher cfg b 0).1 b.length rfl hn hne hlen
    (by simp [fresh])
  obtain ⟨s1, s2, wr, s3⟩ := handle_put_stores cfg _ name (cipher cfg b 0).1 [] b.length
    hne hsl hdd (k4.trans rfl) (k2.trans (List.append_nil _).symm) hcl hlen hfs
  rw [hinv] at s3
  rw [k3] at s1
  have hfo : ∀ (i : List Byte) (q : List Nat), (fresh i q).out = [] := fun _ _ => rfl
  rw [hfo, List.nil_append] at s1
  -- the download, server side
  obtain ⟨g1, g2, g3, g4⟩ := handle_line_get users cfg
    ⟨fresh (str "GET " ++ name ++ [NL]) p3,
      (handle_put cfg (silent ⟨fresh (str "PUT " ++ name ++ str " " ++ dec b.length ++ [NL] ++
        (cipher cfg b 0).1) p2, fs, [], true, false⟩) name b.length).fs, [], true, false⟩
    name [] rfl hn hne (by simp [fresh])
  obtain ⟨t1, t2⟩ := handle_get_streams cfg _ name b wr hsl hdd (g4.trans rfl) s3 hlen
  rw [g3, hfo, List.nil_append] at t1
  rw [g2] at t2
  -- the download, client side
  obtain ⟨plan, hdown⟩ := do_get_saves cfg p4 name (cipher cfg b 0).1 (by rw [hcl]; exact hlen)
  rw [hcl, hinv] at hdown
  have hok : str "OK" ++ [NL] ++ (str "OK" ++ [NL]) = str "OK\nOK\n" := by decide
  unfold RoundTrip
  simp only [hup]
  simp only [k1]
  simp only [g1]
  simp only [t1, t2, s1, s2, hok, hdown, file_content, s3]
  exact ⟨trivial, trivial, trivial, trivial, trivial, trivial, _, rfl, rfl, rfl, rfl, rfl⟩

/-- Witness for C1: the five bytes `hello` under the key `key`, the name
`f.txt`, an empty directory, and transports that deliver one, two or three
bytes at a time. -/
theorem round_trip_witness :
    RoundTrip [] ⟨true, str "key"⟩ (str "hello") (str "f.txt") ⟨true, true, []⟩
      [1, 1, 1] [2, 1, 3] [1] [3, 1, 2] :=
  round_trip [] ⟨true, str "key"⟩ (str "hello") (str "f.txt") ⟨true, true, []⟩
    [1, 1, 1] [2, 1, 3] [1] [3, 1, 2] (by decide) (by decide) (by decide) (by decide)
    (by decide) (by decide)

/-! ## Claims about the session state machine -/

/-- C5 (as amended): for every credential store and every entry `(user, pass)`
in it whose `user` is a non-empty token and whose `pass` is a token (no white
space in either), when the server reads the line `do_auth` builds for them,
`handle_client` replies exactly `OK`, the session becomes Authenticated and
the loop goes on; nothing else happens. -/
theorem auth_accepts_stored (users : Users) (cfg : Config) (w : Server)
    (cin : List Byte) (cplan : List Nat) (user pass rest : List Byte)
    (hentry : users.lookup user = some pass)
    (hu : IsToken user) (hne : user ≠ []) (hp : IsToken pass)
    (hwire : w.sock.inp = (do_auth ⟨cin, cplan, [], none⟩ user pass).1.out ++ rest) :
    handle_line users cfg w = (reply { w with authed := true } (str "OK"), true) ∧
    (handle_line users cfg w).1.authed = true ∧
    (handle_line users cfg w).1.sock.inp = rest ∧
    (w.sock.room = none →
      (handle_line users cfg w).1.sock.out = w.sock.out ++ (str "OK" ++ [NL])) := by
  have hl : ∀ c ∈ str "AUTH " ++ user ++ str " " ++ pass, c ≠ NL := by
    intro c hc
    simp only [List.mem_append] at hc
    rcases hc with ((hc | hc) | hc) | hc
    · exact (by decide : ∀ c ∈ str "AUTH ", c ≠ NL) c hc
    · exact token_not_nl user hu c hc
    · exact (by decide : ∀ c ∈ str " ", c ≠ NL) c hc
    · exact token_not_nl pass hp c hc
  have hin : w.sock.inp = (str "AUTH " ++ user ++ str " " ++ pass) ++ NL :: rest := by
    rw [hwire, do_auth_wire]; simp
  obtain ⟨r1, r2, -, -⟩ := recv_line_line w.sock _ rest hl hin
  obtain ⟨t1, t2, t3⟩ := auth_line_tokens user pass hu hne hp
  have hnonempty : (str "AUTH " ++ user ++ str " " ++ pass).isEmpty = false := by
    rw [str_AUTH]; simp
  have key : handle_line users cfg w = (reply { w with authed := true } (str "OK"), true) := by
    unfold command_of at t1
    unfold arg1_of after_command at t2
    unfold arg2_of after_command at t3
    simp only [handle_line, r1, hnonempty, Bool.false_eq_true, if_false, t1, if_true, t2, t3,
      hentry, reply, Server.send]
  refine ⟨key, ?_, ?_, ?_⟩
  · rw [key]; rfl
  · rw [key]; simp [reply, send_line, send_all]
    cases h : (recv_line w.sock).2.room <;> simp [h, r2]
    split <;> simp [r2]
  · intro hroom
    rw [key]
    exact reply_out { w with authed := true } (str "OK") hroom

/-- Witness for C5: the store `alice -> secret`, a fresh session, and the line
`AUTH alice secret` on the wire. -/
theorem auth_accepts_stored_witness :
    (handle_line [(str "alice", str "secret")] ⟨false, []⟩
      ⟨⟨str "AUTH alice secret\n", [], [], none⟩, ⟨true, true, []⟩, [], false, false⟩).1.authed
      = true ∧
    (handle_line [(str "alice", str "secret")] ⟨false, []⟩
      ⟨⟨str "AUTH alice secret\n", [], [], none⟩, ⟨true, true, []⟩, [], false, false⟩).1.sock.out
      = str "OK\n" :=
  have h := auth_accepts_stored [(str "alice", str "secret")] ⟨false, []⟩
    ⟨⟨str "AUTH alice secret\n", [], [], none⟩, ⟨true, true, []⟩, [], false, false⟩
    [] [] (str "alice") (str "secret") [] (by decide) (by decide) (by decide) (by decide)
    (by decide)
  ⟨h.2.1, h.2.2.2 rfl⟩

/-- C5 fails as stated: `load_users` stores the password `my pass` for the line
`alice:my pass`; `do_auth` then sends `AUTH alice my pass`, of which the server
takes `my` as the password, and it replies `ERR invalid credentials`. -/
theorem auth_accepts_stored_counterexample :
    (load_users [str "alice:my pass"] []).lookup (str "alice") = some (str "my pass") ∧
    (handle_line (load_users [str "alice:my pass"] []) ⟨false, []⟩
      ⟨⟨(do_auth ⟨[], [], [], none⟩ (str "alice") (str "my pass")).1.out, [], [], none⟩,
        ⟨true, true, []⟩, [], false, false⟩).1.sock.out = str "ERR invalid credentials\n" ∧
    (handle_line (load_users [str "alice:my pass"] []) ⟨false, []⟩
      ⟨⟨(do_auth ⟨[], [], [], none⟩ (str "alice") (str "my pass")).1.out, [], [], none⟩,
        ⟨true, true, []⟩, [], false, false⟩).1.authed = false := by
  decide

/-- C6: for every credential store and every line read whose command token is
`AUTH` and whose `(user, pass)` tokens are not an entry of the store (unknown
user, wrong password, missing arguments), `handle_client` replies exactly
`ERR invalid credentials` and the session flag stays as it was, Authenticated
or not; nothing else happens and the loop goes on. -/
theorem auth_rejects_others (users : Users) (cfg : Config) (w : Server)
    (hline : (recv_line w.sock).1 ≠ [])
    (hcmd : command_of (recv_line w.sock).1 = str "AUTH")
    (hbad : users.lookup (arg1_of (recv_line w.sock).1) ≠ some (arg2_of (recv_line w.sock).1)) :
    handle_line users cfg w = (reply w (str "ERR invalid credentials"), true) ∧
    (handle_line users cfg w).1.authed = w.authed ∧
    (w.sock.room = none →
      (handle_line users cfg w).1.sock.out =
        w.sock.out ++ (str "ERR invalid credentials" ++ [NL])) := by
  have hnonempty : (recv_line w.sock).1.isEmpty = false := by
    cases h : (recv_line w.sock).1 with
    | nil => exact absurd h hline
    | cons a l => rfl
  have key : handle_line users cfg w = (reply w (str "ERR invalid credentials"), true) := by
    unfold command_of at hcmd
    unfold arg1_of arg2_of after_command at hbad
    simp only [handle_line, hnonempty, Bool.false_eq_true, if_false, hcmd, if_true, hbad,
      reply, Server.send]
  refine ⟨key, ?_, ?_⟩
  · rw [key]; rfl
  · intro hroom
    rw [key]
    exact reply_out w _ hroom

/-- Witness for C6: a wrong password in a session that is already
Authenticated; the reply is the error line and the session stays
Authenticated. -/
theorem auth_rejects_others_witness :
    (handle_line [(str "alice", str "secret")] ⟨false, []⟩
      ⟨⟨str "AUTH alice guess\n", [], [], none⟩, ⟨true, true, []⟩, [], true, false⟩).1.authed
      = true ∧
    (handle_line [(str "alice", str "secret")] ⟨false, []⟩
      ⟨⟨str "AUTH alice guess\n", [], [], none⟩, ⟨true, true, []⟩, [], true, false⟩).1.sock.out
      = str "ERR invalid credentials\n" :=
  have h := auth_rejects_others [(str "alice", str "secret")] ⟨false, []⟩
    ⟨⟨str "AUTH alice guess\n", [], [], none⟩, ⟨true, true, []⟩, [], true, false⟩
    (by decide) (by decide) (by decide)
  ⟨h.2.1, h.2.2 rfl⟩

/-- C7: in every Unauthenticated session, every line read whose command token
is not `AUTH` (so every token other than `AUTH` and `QUIT`, `LIST`, `GET` and
`PUT` among them) gets exactly the one reply line `ERR not authenticated`; the
session stays Unauthenticated, the loop goes on, the filesystem is neither
consulted nor changed, and nothing but the command line is taken from the
stream. -/
theorem unauthenticated_gate (users : Users) (cfg : Config) (w : Server)
    (hline : (recv_line w.sock).1 ≠ [])
    (hauth : w.authed = false)
    (hcmd : command_of (recv_line w.sock).1 ≠ str "AUTH")
    (_hquit : command_of (recv_line w.sock).1 ≠ str "QUIT") :
    handle_line users cfg w = (reply w (str "ERR not authenticated"), true) ∧
    (handle_line users cfg w).1.authed = false ∧
    (handle_line users cfg w).1.log = w.log ∧
    (handle_line users cfg w).1.fs = w.fs ∧
    (handle_line users cfg w).1.sock.inp = (recv_line w.sock).2.inp ∧
    (w.sock.room = none →
      (handle_line users cfg w).1.sock.out =
        w.sock.out ++ (str "ERR not authenticated" ++ [NL])) := by
  have hnonempty : (recv_line w.sock).1.isEmpty = false := by
    cases h : (recv_line w.sock).1 with
    | nil => exact absurd h hline
    | cons a l => rfl
  have key : handle_line users cfg w = (reply w (str "ERR not authenticated"), true) := by
    unfold command_of at hcmd
    simp only [handle_line, hnonempty, Bool.false_eq_true, if_false, hcmd, hauth,
      Bool.not_false, if_true, reply, Server.send]
  refine ⟨key, ?_, ?_, ?_, ?_, ?_⟩
  · rw [key]; exact hauth
  · rw [key]; rfl
  · rw [key]; rfl
  · rw [key]
    exact reply_inp w _
  · intro hroom
    rw [key]
    exact reply_out w _ hroom

/-- Witness for C7: `PUT x 0` followed by a body byte in a fresh session with
a file `x` in the directory: one error line, the file untouched, no filesystem
call, the byte after the line still in the stream. -/
theorem unauthenticated_gate_witness :
    handle_line [] ⟨false, []⟩
      ⟨⟨str "PUT x 0\n!", [], [], none⟩, ⟨true, true, [(str "x", Node.regular [1] true true)]⟩,
        [], false, false⟩ =
    (⟨⟨str "!", [], str "ERR not authenticated\n", none⟩,
        ⟨true, true, [(str "x", Node.regular [1] true true)]⟩, [], false, false⟩, true) :=
  have h := unauthenticated_gate [] ⟨false, []⟩
    ⟨⟨str "PUT x 0\n!", [], [], none⟩, ⟨true, true, [(str "x", Node.regular [1] true true)]⟩,
      [], false, false⟩ (by decide) rfl (by decide) (by decide)
  h.1.trans (by decide)

/-- C8 (as amended): in an Authenticated session, when `handle_client` reads a
line whose command token is `QUIT` it sends nothing, leaves the command loop
and closes the connection: the output is what it was, the session is Closed,
and what follows the line in the stream is never read.  (In an Unauthenticated
session the authentication gate answers first.) -/
theorem quit_closes (users : Users) (cfg : Config) (w : Server) (fuel : Nat)
    (hline : (recv_line w.sock).1 ≠ [])
    (hauth : w.authed = true)
    (hcmd : command_of (recv_line w.sock).1 = str "QUIT") :
    handle_line users cfg w = (silent w, false) ∧
    handle_client users cfg (fuel + 1) w = { silent w with closed := true } ∧
    (handle_client users cfg (fuel + 1) w).sock.out = w.sock.out ∧
    (handle_client users cfg (fuel + 1) w).sock.inp = (recv_line w.sock).2.inp ∧
    (handle_client users cfg (fuel + 1) w).closed = true := by
  have hnonempty : (recv_line w.sock).1.isEmpty = false := by
    cases h : (recv_line w.sock).1 with
    | nil => exact absurd h hline
    | cons a l => rfl
  have key : handle_line users cfg w = (silent w, false) := by
    unfold command_of at hcmd
    simp only [handle_line, hnonempty, Bool.false_eq_true, if_false, hcmd, hauth,
      Bool.not_true, silent]
    simp only [show ¬ (str "QUIT" = str "AUTH") by decide, show ¬ (str "QUIT" = str "LIST") by decide,
      show ¬ (str "QUIT" = str "GET") by decide, show ¬ (str "QUIT" = str "PUT") by decide,
      if_false, if_true]
  have run : handle_client users cfg (fuel + 1) w = { silent w with closed := true } := by
    simp only [handle_client, key, Bool.false_eq_true, if_false]
  refine ⟨key, run, ?_, ?_, ?_⟩
  · rw [run]; exact (recv_line_out w.sock).1
  · rw [run]; rfl
  · rw [run]

/-- Witness for C8: `QUIT` followed by `LIST` in an Authenticated session:
nothing is sent, the connection is closed, `LIST` is never read. -/
theorem quit_closes_witness :
    handle_client [] ⟨false, []⟩ 3
      ⟨⟨str "QUIT\nLIST\n", [], [], none⟩, ⟨true, true, []⟩, [], true, false⟩ =
    ⟨⟨str "LIST\n", [], [], none⟩, ⟨true, true, []⟩, [], true, true⟩ :=
  have h := quit_closes [] ⟨false, []⟩
    ⟨⟨str "QUIT\nLIST\n", [], [], none⟩, ⟨true, true, []⟩, [], true, false⟩ 2
    (by decide) rfl (by decide)
  h.2.1.trans (by decide)

/-- C8 fails as stated: in an Unauthenticated session the line `QUIT` is
answered with `ERR not authenticated`, the loop goes on, and the `LIST` line
after it is read and answered as well before the stream ends. -/
theorem quit_closes_counterexample :
    handle_line [] ⟨false, []⟩
      ⟨⟨str "QUIT\nLIST\n", [], [], none⟩, ⟨true, true, []⟩, [], false, false⟩ =
    (⟨⟨str "LIST\n", [], str "ERR not authenticated\n", none⟩, ⟨true, true, []⟩, [], false,
      false⟩, true) ∧
    (handle_client [] ⟨false, []⟩ 3
      ⟨⟨str "QUIT\nLIST\n", [], [], none⟩, ⟨true, true, []⟩, [], false, false⟩).sock.out =
    str "ERR not authenticated\nERR not authenticated\n" := by
  decide

theorem after_command_fail (line : List Byte) :
    (after_command line).fail = (command_of line).isEmpty := by
  simp [after_command, command_of, extract_string]

theorem arg1_stream_fail (line : List Byte) (h : (after_command line).fail = false) :
    (extract_string (after_command line)).2.fail = (arg1_of line).isEmpty := by
  simp [arg1_of, extract_string, h]

theorem extract_u64_fail (x : IStream) (h : x.fail = false) :
    (extract_u64 x).2.fail = true ↔ SizeRejected (x.buf.dropWhile isspace) := by
  unfold extract_u64 SizeRejected
  simp only [h, Bool.false_eq_true, if_false]
  by_cases h1 : List.takeWhile isdigit (take_sign (List.dropWhile isspace x.buf)).2 = []
  · simp [h1]
  · have h1b : (List.takeWhile isdigit (take_sign (List.dropWhile isspace x.buf)).2).isEmpty
        = false := by
      cases hh : List.takeWhile isdigit (take_sign (List.dropWhile isspace x.buf)).2 with
      | nil => exact absurd hh h1
      | cons a l => rfl
    simp only [h1b, Bool.false_eq_true, if_false, h1, false_or]
    by_cases h2 : WORD ≤ dec_val (List.takeWhile isdigit (take_sign (List.dropWhile isspace x.buf)).2)
    · simp [h2]
    · simp [h2]

theorem bad_name_nonempty (f : List Byte) (h : BadPath f) : f.isEmpty = false := by
  cases f with
  | nil => rcases h with h | h <;> simp [has_slash, has_dotdot] at h
  | cons a l => rfl

theorem put_size_fail (line : List Byte) (hcmd : command_of line = str "PUT") :
    (size_of line).2.fail = true ↔ (arg1_of line = [] ∨ SizeRejected (size_text line)) := by
  have h0 : (after_command line).fail = false := by
    rw [after_command_fail, hcmd]; decide
  have h1 := arg1_stream_fail line h0
  by_cases ha : arg1_of line = []
  · have hf : (extract_string (after_command line)).2.fail = true := by rw [h1, ha]; rfl
    simp [size_of, extract_u64, hf, ha]
  · have hf : (extract_string (after_command line)).2.fail = false := by
      rw [h1]; cases hh : arg1_of line with
      | nil => exact absurd hh ha
      | cons a l => rfl
    simp only [size_of, size_text, ha, false_or]
    exact extract_u64_fail _ hf

/-- C9 (as amended): for every Authenticated session and every line read whose
command token is `GET` or `PUT` and whose filename contains `/` or `..`, the
server sends exactly one line and does nothing else: no `OK`, no body byte
sent or read, no filesystem call, no change of the directory.  The line is
`ERR invalid filename` for every `GET` and for every `PUT` whose size parses;
for a `PUT` whose size is missing or does not parse it is `ERR bad header`. -/
theorem path_rule_rejects (users : Users) (cfg : Config) (w : Server)
    (hline : (recv_line w.sock).1 ≠ [])
    (hauth : w.authed = true)
    (hcmd : command_of (recv_line w.sock).1 = str "GET" ∨
      command_of (recv_line w.sock).1 = str "PUT")
    (hname : BadPath (arg1_of (recv_line w.sock).1)) :
    handle_line users cfg w =
      (reply w (if command_of (recv_line w.sock).1 = str "PUT" ∧
            (size_of (recv_line w.sock).1).2.fail = true
          then str "ERR bad header" else str "ERR invalid filename"), true) ∧
    (handle_line users cfg w).1.log = w.log ∧
    (handle_line users cfg w).1.fs = w.fs ∧
    (handle_line users cfg w).1.sock.inp = (recv_line w.sock).2.inp ∧
    (w.sock.room = none →
      (handle_line users cfg w).1.sock.out = w.sock.out ++
        ((if command_of (recv_line w.sock).1 = str "PUT" ∧
            (size_of (recv_line w.sock).1).2.fail = true
          then str "ERR bad header" else str "ERR invalid filename") ++ [NL])) := by
  have hnonempty : (recv_line w.sock).1.isEmpty = false := by
    cases h : (recv_line w.sock).1 with
    | nil => exact absurd h hline
    | cons a l => rfl
  have hf := bad_name_nonempty _ hname
  have hu : (has_slash (arg1_of (recv_line w.sock).1) ||
      has_dotdot (arg1_of (recv_line w.sock).1)) = true := by
    rcases hname with h | h <;> simp [h]
  have key : handle_line users cfg w =
      (reply w (if command_of (recv_line w.sock).1 = str "PUT" ∧
            (size_of (recv_line w.sock).1).2.fail = true
          then str "ERR bad header" else str "ERR invalid filename"), true) := by
    unfold size_of
    unfold arg1_of at hf hu
    unfold after_command at hf hu ⊢
    unfold command_of at hcmd ⊢
    rcases hcmd with hc | hc
    · simp only [handle_line, hnonempty, Bool.false_eq_true, if_false, hc, hauth,
        Bool.not_true, reply, Server.send, hf, handle_get, hu, if_true]
      simp only [show ¬ (str "GET" = str "AUTH") by decide,
        show ¬ (str "GET" = str "LIST") by decide, show ¬ (str "GET" = str "PUT") by decide,
        if_false, if_true, false_and]
    · simp only [handle_line, hnonempty, Bool.false_eq_true, if_false, hc, hauth,
        Bool.not_true, reply, Server.send, hf, handle_put, hu, if_true, Bool.or_false]
      simp only [show ¬ (str "PUT" = str "AUTH") by decide,
        show ¬ (str "PUT" = str "LIST") by decide, show ¬ (str "PUT" = str "GET") by decide,
        if_false, if_true, true_and]
      split <;> rfl
  refine ⟨key, ?_, ?_, ?_, ?_⟩
  · rw [key]; rfl
  · rw [key]; rfl
  · rw [key]
    exact reply_inp w _
  · intro hroom
    rw [key]
    exact reply_out w _ hroom

/-- Witness for C9: `GET ../users.txt` in an Authenticated session. -/
theorem path_rule_rejects_witness :
    handle_line [] ⟨false, []⟩
      ⟨⟨str "GET ../users.txt\n", [], [], none⟩, ⟨true, true, []⟩, [], true, false⟩ =
    (⟨⟨[], [], str "ERR invalid filename\n", none⟩, ⟨true, true, []⟩, [], true, false⟩, true) :=
  have h := path_rule_rejects [] ⟨false, []⟩
    ⟨⟨str "GET ../users.txt\n", [], [], none⟩, ⟨true, true, []⟩, [], true, false⟩
    (by decide) rfl (by decide) (Or.inr (by decide))
  h.1.trans (by decide)

/-- C9 fails as stated: the line `PUT ../x`, a `PUT` whose filename contains
`..`, is answered with `ERR bad header`, not with `ERR invalid filename`: the
header check of `handle_client` comes before the path check of `handle_put`. -/
theorem path_rule_rejects_counterexample :
    command_of (str "PUT ../x") = str "PUT" ∧ has_dotdot (arg1_of (str "PUT ../x")) = true ∧
    handle_line [] ⟨false, []⟩
      ⟨⟨str "PUT ../x\n", [], [], none⟩, ⟨true, true, []⟩, [], true, false⟩ =
    (⟨⟨[], [], str "ERR bad header\n", none⟩, ⟨true, true, []⟩, [], true, false⟩, true) := by
  decide

/-- C10 (as amended): for every Authenticated session and every line read whose
command token is `PUT` and in which the filename is missing, or the size text,
after an optional sign, has no digit in front (missing, `abc`) or denotes a
magnitude of `2^64` or more, the server replies the single line
`ERR bad header` and does nothing else: no ready `OK`, no file created, no
filesystem call, no body byte read. -/
theorem put_header_rejected (users : Users) (cfg : Config) (w : Server)
    (hline : (recv_line w.sock).1 ≠ [])
    (hauth : w.authed = true)
    (hcmd : command_of (recv_line w.sock).1 = str "PUT")
    (hbad : arg1_of (recv_line w.sock).1 = [] ∨ SizeRejected (size_text (recv_line w.sock).1)) :
    handle_line users cfg w = (reply w (str "ERR bad header"), true) ∧
    (handle_line users cfg w).1.log = w.log ∧
    (handle_line users cfg w).1.fs = w.fs ∧
    (handle_line users cfg w).1.sock.inp = (recv_line w.sock).2.inp ∧
    (w.sock.room = none →
      (handle_line users cfg w).1.sock.out = w.sock.out ++ (str "ERR bad header" ++ [NL])) := by
  have hnonempty : (recv_line w.sock).1.isEmpty = false := by
    cases h : (recv_line w.sock).1 with
    | nil => exact absurd h hline
    | cons a l => rfl
  have hfail := (put_size_fail _ hcmd).2 hbad
  have key : handle_line users cfg w = (reply w (str "ERR bad header"), true) := by
    unfold size_of after_command at hfail
    unfold command_of at hcmd
    simp only [handle_line, hnonempty, Bool.false_eq_true, if_false, hcmd, hauth,
      Bool.not_true, reply, Server.send, hfail, Bool.true_or, if_true]
    simp only [show ¬ (str "PUT" = str "AUTH") by decide,
      show ¬ (str "PUT" = str "LIST") by decide, show ¬ (str "PUT" = str "GET") by decide,
      if_false]
  refine ⟨key, ?_, ?_, ?_, ?_⟩
  · rw [key]; rfl
  · rw [key]; rfl
  · rw [key]
    exact reply_inp w _
  · intro hroom
    rw [key]
    exact reply_out w _ hroom

/-- Witness for C10: a size of `2^64`, one more than fits 64 bits, followed by
body bytes: the error line is the whole reply and the body stays unread. -/
theorem put_header_rejected_witness :
    handle_line [] ⟨false, []⟩
      ⟨⟨str "PUT x 18446744073709551616\nbody", [], [], none⟩, ⟨true, true, []⟩, [], true,
        false⟩ =
    (⟨⟨str "body", [], str "ERR bad header\n", none⟩, ⟨true, true, []⟩, [], true, false⟩,
      true) :=
  have h := put_header_rejected [] ⟨false, []⟩
    ⟨⟨str "PUT x 18446744073709551616\nbody", [], [], none⟩, ⟨true, true, []⟩, [], true, false⟩
    (by decide) rfl (by decide) (Or.inr (Or.inr (by decide)))
  h.1.trans (by decide)

/-- C10 fails as stated: for the size texts `12abc` and `-1` the extraction
succeeds, with 12 (stopping at `a`) and with `2^64 - 1` (the negation modulo
`2^64`).  The server sends the ready `OK`, creates the file `x` and reads body
bytes from the connection. -/
theorem put_header_rejected_counterexample :
    (size_of (str "PUT x 12abc")).1 = 12 ∧ (size_of (str "PUT x 12abc")).2.fail = false ∧
    handle_line [] ⟨false, []⟩
      ⟨⟨str "PUT x 12abc\nhello", [], [], none⟩, ⟨true, true, []⟩, [], true, false⟩ =
    (⟨⟨[], [], str "OK\n", none⟩, ⟨true, true, [(str "x", Node.regular (str "hello") true true)]⟩,
      [FsCall.dir_exists, FsCall.open_write (str "x")], true, false⟩, true) ∧
    (size_of (str "PUT x -1")).1 = WORD - 1 ∧ (size_of (str "PUT x -1")).2.fail = false ∧
    handle_line [] ⟨false, []⟩
      ⟨⟨str "PUT x -1\nhello", [], [], none⟩, ⟨true, true, []⟩, [], true, false⟩ =
    (⟨⟨[], [], str "OK\n", none⟩, ⟨true, true, [(str "x", Node.regular (str "hello") true true)]⟩,
      [FsCall.dir_exists, FsCall.open_write (str "x")], true, false⟩, true) := by
  decide

/-! ## Claims about the cipher -/

/-- C4 (as amended): for every buffer `b`, count `n <= len(b)`, offset `idx`
(a `size_t`) and key: with an empty key `xor_bytes` leaves `b` and `idx`
unchanged; otherwise byte `i < n` becomes `b[i] XOR key[((idx + i) mod 2^64) mod
len(key)]`, every byte at index `>= n` is unchanged and the new offset is
`(idx + n) mod 2^64`.  When `idx + n < 2^64` this is the reference definition
with unbounded offsets. -/
theorem xor_bytes_reference (b : List Byte) (n idx : Nat) (key : List Byte)
    (hn : n ≤ b.length) (hidx : idx < WORD) :
    (key = [] → xor_bytes b n idx key = (b, idx)) ∧
    (key ≠ [] →
      (∀ i, i < n → (xor_bytes b n idx key).1[i]? =
          some (b.getD i 0 ^^^ key.getD (((idx + i) % WORD) % key.length) 0)) ∧
      (∀ i, n ≤ i → (xor_bytes b n idx key).1[i]? = b[i]?) ∧
      (xor_bytes b n idx key).2 = (idx + n) % WORD) ∧
    (idx + n < WORD → XorReference b n idx key (xor_bytes b n idx key)) := by
  have hgen : key ≠ [] →
      (∀ i, i < n → (xor_bytes b n idx key).1[i]? =
          some (b.getD i 0 ^^^ key.getD (((idx + i) % WORD) % key.length) 0)) ∧
      (∀ i, n ≤ i → (xor_bytes b n idx key).1[i]? = b[i]?) ∧
      (xor_bytes b n idx key).2 = (idx + n) % WORD := by
    intro hk
    have hk2 : key.isEmpty = false := by cases key <;> simp_all
    simp only [xor_bytes, hk2, Bool.false_eq_true, if_false]
    exact ⟨fun i hi => xor_loop_below key n b idx hn hidx i hi,
      fun i hi => xor_loop_above key n b idx i hi, xor_loop_offset key n b idx hn hidx⟩
  refine ⟨?_, hgen, ?_⟩
  · intro hk
    simp [xor_bytes, hk]
  · intro hlt
    unfold XorReference
    by_cases hk : key = []
    · simp [xor_bytes, hk]
    · have hk2 : key.isEmpty = false := by cases key <;> simp_all
      obtain ⟨h1, h2, h3⟩ := hgen hk
      simp only [hk2, Bool.false_eq_true, if_false]
      refine ⟨?_, h2, ?_⟩
      · intro i hi
        rw [h1 i hi, Nat.mod_eq_of_lt (by omega : idx + i < WORD)]
      · rw [h3, Nat.mod_eq_of_lt hlt]

/-- Witness for C4: the last two of four bytes left alone, key of three bytes,
offset 5. -/
theorem xor_bytes_reference_witness :
    xor_bytes [10, 20, 30, 40] 2 5 [1, 2, 3] = ([9, 21, 30, 40], 7) ∧
    XorReference [10, 20, 30, 40] 2 5 [1, 2, 3] (xor_bytes [10, 20, 30, 40] 2 5 [1, 2, 3]) :=
  ⟨by decide,
    (xor_bytes_reference [10, 20, 30, 40] 2 5 [1, 2, 3] (by decide) (by decide)).2.2 (by decide)⟩

/-- C4 fails as stated: at offset `2^64 - 1` the `size_t` offset wraps to 0
after the first byte, so the second byte is combined with `key[0]`, not with
`key[2^64 mod 3] = key[1]`, and the offset after the call is 1, not
`2^64 + 1`. -/
theorem xor_bytes_reference_counterexample :
    xor_bytes [0, 0] 2 (WORD - 1) [1, 2, 3] = ([1, 1], 1) ∧
    ¬ XorReference [0, 0] 2 (WORD - 1) [1, 2, 3] (xor_bytes [0, 0] 2 (WORD - 1) [1, 2, 3]) := by
  have h : xor_bytes [0, 0] 2 (WORD - 1) [1, 2, 3] = ([1, 1], 1) := by decide
  refine ⟨h, ?_⟩
  rw [h]
  intro hx
  have h3 := hx.2.2
  revert h3
  decide


/-- C2: for every key and every split of a byte sequence into consecutive
chunks (of any lengths, empty ones included), ciphering chunk after chunk with
the offset carried over from 0 gives, concatenated, the same bytes and the same
final offset as one `xor_bytes` call over the whole sequence from offset 0. -/
theorem xor_bytes_chunking_invariant (key : List Byte) (chunks : List (List Byte)) :
    ((xor_chunks key chunks 0).1.flatten, (xor_chunks key chunks 0).2) =
      xor_bytes chunks.flatten chunks.flatten.length 0 key :=
  xor_chunks_flatten key chunks 0

/-- C3: for every key (empty or not) and every byte sequence `b`, `xor_bytes`
over all of `b` from offset 0, applied again over the result from offset 0 with
the same key, gives back `b`. -/
theorem xor_bytes_self_inverse (key : List Byte) (b : List Byte) :
    (xor_bytes (xor_bytes b b.length 0 key).1 b.length 0 key).1 = b :=
  xor_bytes_involutive key b 0

/-! ## Lemmas about the dispatch of `handle_client` -/

theorem line_nonempty (l : List Byte) (h : l ≠ []) : l.isEmpty = false := by
  cases l with
  | nil => exact absurd rfl h
  | cons a t => rfl

theorem dispatch_get (users : Users) (cfg : Config) (w : Server)
    (hline : (recv_line w.sock).1 ≠ []) (hauth : w.authed = true)
    (hcmd : command_of (recv_line w.sock).1 = str "GET")
    (hf : arg1_of (recv_line w.sock).1 ≠ []) :
    handle_line users cfg w = (handle_get cfg (silent w) (arg1_of (recv_line w.sock).1), true) := by
  have hnonempty := line_nonempty _ hline
  have he := line_nonempty _ hf
  unfold arg1_of after_command at he ⊢
  unfold command_of at hcmd
  simp only [handle_line, hnonempty, Bool.false_eq_true, if_false, hcmd, hauth,
    Bool.not_true, he, silent]
  simp only [show ¬ (str "GET" = str "AUTH") by decide,
    show ¬ (str "GET" = str "LIST") by decide, if_false, if_true]

theorem dispatch_put (users : Users) (cfg : Config) (w : Server)
    (hline : (recv_line w.sock).1 ≠ []) (hauth : w.authed = true)
    (hcmd : command_of (recv_line w.sock).1 = str "PUT")
    (hf : arg1_of (recv_line w.sock).1 ≠ [])
    (hsize : (size_of (recv_line w.sock).1).2.fail = false) :
    handle_line users cfg w =
      (handle_put cfg (silent w) (arg1_of (recv_line w.sock).1)
        (size_of (recv_line w.sock).1).1, true) := by
  have hnonempty := line_nonempty _ hline
  have he := line_nonempty _ hf
  unfold size_of at hsize ⊢
  unfold arg1_of at he ⊢
  unfold after_command at he hsize ⊢
  unfold command_of at hcmd
  simp only [handle_line, hnonempty, Bool.false_eq_true, if_false, hcmd, hauth,
    Bool.not_true, he, hsize, Bool.or_false, silent]
  simp only [show ¬ (str "PUT" = str "AUTH") by decide,
    show ¬ (str "PUT" = str "LIST") by decide, show ¬ (str "PUT" = str "GET") by decide,
    if_false, if_true]

theorem dispatch_list (users : Users) (cfg : Config) (w : Server)
    (hline : (recv_line w.sock).1 ≠ []) (hauth : w.authed = true)
    (hcmd : command_of (recv_line w.sock).1 = str "LIST") :
    handle_line users cfg w = (handle_list (silent w), true) := by
  have hnonempty := line_nonempty _ hline
  unfold command_of at hcmd
  simp only [handle_line, hnonempty, Bool.false_eq_true, if_false, hcmd, hauth,
    Bool.not_true, silent]
  simp only [show ¬ (str "LIST" = str "AUTH") by decide, if_false, if_true]

theorem silent_facts (w : Server) :
    (silent w).sock.out = w.sock.out ∧ (silent w).sock.room = w.sock.room ∧
      (silent w).fs = w.fs ∧ (silent w).log = w.log ∧ (silent w).authed = w.authed ∧
      (silent w).closed = w.closed ∧ (silent w).sock.inp = (recv_line w.sock).2.inp :=
  ⟨(recv_line_out w.sock).1, (recv_line_out w.sock).2, rfl, rfl, rfl, rfl, rfl⟩

/-! ## Claims about GET -/

/-- C11: for every Authenticated session and every line read whose command
token is `GET` and whose filename is path-safe and names an existing regular
file with content `c` that can be opened, the complete server output of the
round is the line `OK <len(c)>` in decimal followed immediately by exactly
`len(c)` bytes and nothing after them; the bytes are `c` ciphered from offset 0
with the configured key, and `c` itself when no key is configured.  (The peer
stays connected and `len(c)` is below `2^64`.) -/
theorem get_success_framing (users : Users) (cfg : Config) (w : Server)
    (name content : List Byte) (wr : Bool)
    (hline : (recv_line w.sock).1 ≠ []) (hauth : w.authed = true)
    (hcmd : command_of (recv_line w.sock).1 = str "GET")
    (harg : arg1_of (recv_line w.sock).1 = name) (hne : name ≠ [])
    (hsl : has_slash name = false) (hdd : has_dotdot name = false)
    (hfile : find_entry w.fs name = some (Node.regular content true wr))
    (hlen : content.length < WORD) (hroom : w.sock.room = none) :
    (handle_line users cfg w).1.sock.out =
      w.sock.out ++ (str "OK " ++ dec content.length ++ [NL]) ++ (cipher cfg content 0).1 ∧
    (cipher cfg content 0).1.length = content.length ∧
    (cfg.xor_mode = true →
      (cipher cfg content 0).1 = (xor_bytes content content.length 0 cfg.xor_key).1) ∧
    (cfg.xor_mode = false → (cipher cfg content 0).1 = content) ∧
    (handle_line users cfg w).1.sock.inp = (recv_line w.sock).2.inp ∧
    (handle_line users cfg w).2 = true := by
  obtain ⟨f1, f2, f3, -, -, -, f7⟩ := silent_facts w
  have hd := dispatch_get users cfg w hline hauth hcmd (by rw [harg]; exact hne)
  rw [harg] at hd
  obtain ⟨t1, t2⟩ := handle_get_streams cfg (silent w) name content wr hsl hdd
    (f2.trans hroom) (by rw [f3]; exact hfile) hlen
  rw [f1] at t1
  rw [f7] at t2
  refine ⟨by rw [hd]; exact t1, cipher_length cfg content 0, ?_, ?_, by rw [hd]; exact t2,
    by rw [hd]⟩
  · intro hx
    simp [cipher, hx]
  · intro hx
    simp [cipher, hx]

/-- Witness for C11: the file `a.txt` with content `hi!` under the key `k`. -/
theorem get_success_framing_witness :
    (handle_line [] ⟨true, str "k"⟩
      ⟨⟨str "GET a.txt\n", [], [], none⟩,
        ⟨true, true, [(str "a.txt", Node.regular (str "hi!") true true)]⟩, [], true,
        false⟩).1.sock.out =
      [] ++ (str "OK " ++ dec (str "hi!").length ++ [NL]) ++
        (cipher ⟨true, str "k"⟩ (str "hi!") 0).1 ∧
    (cipher ⟨true, str "k"⟩ (str "hi!") 0).1 = [3, 2, 74] :=
  ⟨(get_success_framing [] ⟨true, str "k"⟩
      ⟨⟨str "GET a.txt\n", [], [], none⟩,
        ⟨true, true, [(str "a.txt", Node.regular (str "hi!") true true)]⟩, [], true, false⟩
      (str "a.txt") (str "hi!") true (by decide) rfl (by decide) (by decide) (by decide)
      (by decide) (by decide) (by decide) (by decide) rfl).1, by decide⟩

/-- C12, the code at the failing input: the regular file `x` of three bytes
exists but cannot be opened for reading.  `handle_get` has already sent the
header `OK 3` when the open fails, so the error line `ERR open failed` comes
after an `OK <size>` header instead of being the only output. -/
theorem get_open_failure_after_header :
    (handle_line [] ⟨false, []⟩
      ⟨⟨str "GET x\n", [], [], none⟩,
        ⟨true, true, [(str "x", Node.regular (str "abc") false true)]⟩, [], true,
        false⟩).1.sock.out = str "OK 3\nERR open failed\n" := by
  decide

/-! ## Byte accounting of the receiving loop -/

theorem recv_body_log_result (cfg : Config) (fuel : Nat) (s : Sock) (remaining xidx : Nat)
    (written : List Byte) :
    (recv_body_log cfg fuel s remaining xidx written).1 =
      recv_body cfg fuel s remaining xidx written := by
  induction fuel generalizing s remaining xidx written with
  | zero => rfl
  | succ f ih =>
    unfold recv_body_log recv_body
    by_cases h0 : remaining = 0
    · simp [h0]
    · simp only [h0, if_false]
      generalize (if remaining > BUF then BUF else remaining) = req
      by_cases hz : (recv s req).1.length = 0
      · simp only [hz, if_true]
      · simp only [hz, if_false]
        exact ih _ _ _ _

theorem take_min_length (l : List Byte) (c : Nat) :
    l.take c = l.take (min c l.length) ∧ l.drop c = l.drop (min c l.length) := by
  rcases Nat.le_total c l.length with h | h
  · rw [Nat.min_eq_left h]; exact ⟨rfl, rfl⟩
  · rw [Nat.min_eq_right h, List.drop_length, List.drop_eq_nil_of_le h, List.take_length,
      List.take_of_length_le h]
    exact ⟨rfl, rfl⟩

theorem recv_body_account (cfg : Config) (fuel : Nat) (s : Sock) (remaining xidx : Nat)
    (written : List Byte) (hf : remaining ≤ fuel) (hw : remaining < WORD) :
    ∃ plan, recv_body cfg fuel s remaining xidx written =
      ({ s with inp := s.inp.drop (min remaining s.inp.length), plan := plan },
        written ++ (cipher cfg (s.inp.take (min remaining s.inp.length)) xidx).1,
        decide (remaining ≤ s.inp.length)) := by
  induction fuel generalizing s remaining xidx written with
  | zero =>
    have h0 : remaining = 0 := by omega
    subst h0
    exact ⟨s.plan, by simp [recv_body, cipher_nil]⟩
  | succ f ih =>
    by_cases h0 : remaining = 0
    · subst h0
      exact ⟨s.plan, by simp [recv_body, cipher_nil]⟩
    · have hB : BUF = 4096 := rfl
      have hW : WORD = 18446744073709551616 := by decide
      obtain ⟨k1, k2⟩ := recv_count_bounds s.plan (if remaining > BUF then BUF else remaining)
        (by split <;> omega)
      have k3 : recv_count s.plan (if remaining > BUF then BUF else remaining) ≤ remaining := by
        refine Nat.le_trans k2 ?_
        split <;> omega
      generalize hc : recv_count s.plan (if remaining > BUF then BUF else remaining) = c
        at k1 k2 k3
      obtain ⟨m1, m2⟩ := take_min_length s.inp c
      have hrecv : recv s (if remaining > BUF then BUF else remaining) =
          (s.inp.take (min c s.inp.length),
            { s with inp := s.inp.drop (min c s.inp.length), plan := s.plan.tail }) := by
        simp only [recv, hc, ← m1, ← m2]
      generalize hr : min c s.inp.length = r at hrecv
      have hr1 : r ≤ s.inp.length := by omega
      have hr2 : r ≤ remaining := by omega
      have hl : (s.inp.take r).length = r := by
        rw [List.length_take]; omega
      unfold recv_body
      simp only [h0, if_false, hrecv, hl]
      by_cases hz : r = 0
      · have hempty : s.inp.length = 0 := by omega
        have hnil : s.inp = [] := List.length_eq_zero.1 hempty
        refine ⟨s.plan.tail, ?_⟩
        have hd : decide (remaining ≤ s.inp.length) = false := by
          simp only [decide_eq_false_iff_not]; omega
        simp [hz, hnil, cipher_nil, h0]
      · have hrem : (remaining + WORD - r) % WORD = remaining - r := by
          have e : remaining + WORD - r = (remaining - r) + WORD := by omega
          rw [e, Nat.add_mod_right, Nat.mod_eq_of_lt (by omega)]
        obtain ⟨plan, hp⟩ := ih { s with inp := s.inp.drop r, plan := s.plan.tail }
          (remaining - r) (cipher cfg (s.inp.take r) xidx).2
          (written ++ (cipher cfg (s.inp.take r) xidx).1) (by omega) (by omega)
        refine ⟨plan, ?_⟩
        simp only [hz, if_false, hrem, hp, List.length_drop, List.drop_drop]
        have hk : min (remaining - r) (s.inp.length - r) = min remaining s.inp.length - r := by
          omega
        have hk2 : r + (min remaining s.inp.length - r) = min remaining s.inp.length := by
          omega
        have htake : s.inp.take (min remaining s.inp.length) =
            s.inp.take r ++ (s.inp.drop r).take (min remaining s.inp.length - r) := by
          rw [← List.take_add, hk2]
        have hdec : decide (remaining - r ≤ s.inp.length - r) =
            decide (remaining ≤ s.inp.length) := by
          by_cases hle : remaining ≤ s.inp.length
          · simp only [hle, decide_True, decide_eq_true_eq]; omega
          · simp only [hle, decide_False, decide_eq_false_iff_not]; omega
        rw [hk, hk2, htake, cipher_append, hdec]
        simp only [List.append_assoc]

theorem recv_body_log_rounds (cfg : Config) (fuel : Nat) (s : Sock) (remaining xidx : Nat)
    (written : List Byte) (hw : remaining < WORD) :
    ∀ e ∈ (recv_body_log cfg fuel s remaining xidx written).2,
      e.2.1 = min BUF e.1 ∧ e.2.2 ≤ e.2.1 ∧ e.2.2 ≤ e.1 ∧
        (e.1 + WORD - e.2.2) % WORD = e.1 - e.2.2 ∧ e.1 ≤ remaining := by
  induction fuel generalizing s remaining xidx written with
  | zero => intro e he; simp [recv_body_log] at he
  | succ f ih =>
    have hB : BUF = 4096 := rfl
    have hW : WORD = 18446744073709551616 := by decide
    intro e he
    unfold recv_body_log at he
    by_cases h0 : remaining = 0
    · simp [h0] at he
    · obtain ⟨k1, k2⟩ := recv_count_bounds s.plan (if remaining > BUF then BUF else remaining)
        (by split <;> omega)
      have hreq : (if remaining > BUF then BUF else remaining) = min BUF remaining := by
        split <;> omega
      have hlen : (recv s (min BUF remaining)).1.length ≤ min BUF remaining := by
        rw [hreq] at k2
        simp only [recv, List.length_take]
        omega
      have good : ∀ r, r ≤ min BUF remaining →
          (remaining + WORD - r) % WORD = remaining - r := by
        intro r hr
        have e : remaining + WORD - r = (remaining - r) + WORD := by omega
        rw [e, Nat.add_mod_right, Nat.mod_eq_of_lt (by omega)]
      simp only [h0, if_false] at he
      rw [hreq] at he
      by_cases hz : (recv s (min BUF remaining)).1.length = 0
      · simp only [hz, if_true, List.mem_singleton] at he
        subst he
        exact ⟨rfl, Nat.zero_le _, Nat.zero_le _, good 0 (Nat.zero_le _), Nat.le_refl _⟩
      · simp only [hz, if_false, List.mem_cons] at he
        rcases he with he | he
        · subst he
          exact ⟨rfl, hlen, Nat.le_trans hlen (Nat.min_le_right _ _), good _ hlen,
            Nat.le_refl _⟩
        · have hlt : (remaining + WORD - (recv s (min BUF remaining)).1.length) % WORD < WORD :=
            Nat.mod_lt _ (by omega)
          obtain ⟨a1, a2, a3, a4, a5⟩ := ih _ _ _ _ hlt e he
          refine ⟨a1, a2, a3, a4, ?_⟩
          rw [good _ hlen] at a5
          omega

theorem recv_body_log_full (cfg : Config) (fuel : Nat) (s : Sock) (remaining xidx : Nat)
    (written : List Byte) (hf : remaining ≤ fuel) (hw : remaining < WORD)
    (hlen : remaining ≤ s.inp.length) :
    (∀ e ∈ (recv_body_log cfg fuel s remaining xidx written).2, 1 ≤ e.2.2) ∧
      ((recv_body_log cfg fuel s remaining xidx written).2.map (fun e => e.2.2)).sum =
        remaining := by
  induction fuel generalizing s remaining xidx written with
  | zero =>
    have h0 : remaining = 0 := by omega
    subst h0
    simp [recv_body_log]
  | succ f ih =>
    by_cases h0 : remaining = 0
    · subst h0
      simp [recv_body_log]
    · have hB : BUF = 4096 := rfl
      have hW : WORD = 18446744073709551616 := by decide
      have hreq : (if remaining > BUF then BUF else remaining) = min BUF remaining := by
        split <;> omega
      obtain ⟨k1, k2⟩ := recv_count_bounds s.plan (min BUF remaining) (by omega)
      have hl : (recv s (min BUF remaining)).1.length = recv_count s.plan (min BUF remaining) := by
        simp only [recv, List.length_take]
        omega
      have hinp : (recv s (min BUF remaining)).2.inp.length =
          s.inp.length - recv_count s.plan (min BUF remaining) := by
        simp only [recv, List.length_drop]
      generalize hc : recv_count s.plan (min BUF remaining) = c at k1 k2 hl hinp
      have hrem : (remaining + WORD - c) % WORD = remaining - c := by
        have e : remaining + WORD - c = (remaining - c) + WORD := by omega
        rw [e, Nat.add_mod_right, Nat.mod_eq_of_lt (by omega)]
      have hz : ¬ c = 0 := by omega
      obtain ⟨i1, i2⟩ := ih (recv s (min BUF remaining)).2 (remaining - c)
        (cipher cfg (recv s (min BUF remaining)).1 xidx).2
        (written ++ (cipher cfg (recv s (min BUF remaining)).1 xidx).1)
        (by omega) (by omega) (by rw [hinp]; omega)
      unfold recv_body_log
      simp only [h0, if_false, hreq, hl, hz, hrem, List.mem_cons, List.map_cons, List.sum_cons,
        i2]
      refine ⟨?_, by omega⟩
      intro e he
      rcases he with he | he
      · subst he
        exact k1
      · exact i1 e he

/-- C13: for every declared size `s` below `2^64` and every delivery of the
body in which each `recv` returns at least one byte (the stream holds the `s`
body bytes, cut in any way), the receiving loop of `handle_put` and `do_get`
ends by its own exit test whatever the bound on its rounds, every request is
`min(4096, remaining)`, every return `r` satisfies `1 <= r <= request`,
`remaining -= r` never wraps, the returns add up to `s`, exactly the `s` body
bytes are taken from the connection and what follows them stays, exactly `s`
bytes are written, and the result is success.  For any stream at all, success
means that `s` bytes were taken and written. -/
theorem recv_loop_accounting (cfg : Config) (s : Sock) (size fuel : Nat)
    (body rest : List Byte) (hs : s.inp = body ++ rest) (hb : body.length = size)
    (hw : size < WORD) (hf : size ≤ fuel) :
    recv_body cfg fuel s size 0 [] = recv_body cfg size s size 0 [] ∧
    (recv_body cfg fuel s size 0 []).2.2 = true ∧
    (recv_body cfg fuel s size 0 []).1.inp = rest ∧
    (recv_body cfg fuel s size 0 []).2.1 = (cipher cfg body 0).1 ∧
    (recv_body cfg fuel s size 0 []).2.1.length = size ∧
    (recv_body_log cfg fuel s size 0 []).1 = recv_body cfg fuel s size 0 [] ∧
    (∀ e ∈ (recv_body_log cfg fuel s size 0 []).2,
      e.2.1 = min BUF e.1 ∧ 1 ≤ e.2.2 ∧ e.2.2 ≤ e.2.1 ∧ e.2.2 ≤ e.1 ∧
        (e.1 + WORD - e.2.2) % WORD = e.1 - e.2.2) ∧
    ((recv_body_log cfg fuel s size 0 []).2.map (fun e => e.2.2)).sum = size ∧
    (∀ t : Sock, (recv_body cfg fuel t size 0 []).2.2 = true →
      size ≤ t.inp.length ∧ (recv_body cfg fuel t size 0 []).1.inp = t.inp.drop size ∧
        (recv_body cfg fuel t size 0 []).2.1.length = size) := by
  have hlen : s.inp.length = size + rest.length := by rw [hs, List.length_append, hb]
  have hmin : min size s.inp.length = size := by omega
  have htake : s.inp.take size = body := by
    rw [hs, ← hb, List.take_left]
  have hdrop : s.inp.drop size = rest := by
    rw [hs, ← hb, List.drop_left]
  obtain ⟨p1, e1⟩ := recv_body_account cfg fuel s size 0 [] hf hw
  obtain ⟨p2, e2⟩ := recv_body_account cfg size s size 0 [] (Nat.le_refl _) hw
  have hd : decide (size ≤ s.inp.length) = true := by
    simp only [decide_eq_true_eq]; omega
  rw [hmin, htake, hdrop, hd, List.nil_append] at e1 e2
  obtain ⟨r1, r2⟩ := recv_body_log_full cfg fuel s size 0 [] hf hw (by omega)
  have r3 := recv_body_log_rounds cfg fuel s size 0 [] hw
  -- the plan left over does not depend on the bound either
  have hplan : recv_body cfg fuel s size 0 [] = recv_body cfg size s size 0 [] := by
    clear e1 e2 r1 r2 r3 hd hdrop htake hmin
    have gen : ∀ (f1 f2 : Nat) (t : Sock) (n x : Nat) (wr : List Byte), n ≤ f1 → n ≤ f2 →
        n < WORD → n ≤ t.inp.length →
        recv_body cfg f1 t n x wr = recv_body cfg f2 t n x wr := by
      intro f1
      induction f1 with
      | zero =>
        intro f2 t n x wr h1 _ _ _
        have h0 : n = 0 := by omega
        subst h0
        cases f2 <;> simp [recv_body]
      | succ f ih =>
        intro f2 t n x wr h1 h2 h3 h4
        by_cases h0 : n = 0
        · subst h0
          cases f2 <;> simp [recv_body]
        · cases f2 with
          | zero => omega
          | succ g =>
            have hB : BUF = 4096 := rfl
            have hW : WORD = 18446744073709551616 := by decide
            have hreq : (if n > BUF then BUF else n) = min BUF n := by split <;> omega
            obtain ⟨k1, k2⟩ := recv_count_bounds t.plan (min BUF n) (by omega)
            have hl : (recv t (min BUF n)).1.length = recv_count t.plan (min BUF n) := by
              simp only [recv, List.length_take]
              omega
            have hinp : (recv t (min BUF n)).2.inp.length =
                t.inp.length - recv_count t.plan (min BUF n) := by
              simp only [recv, List.length_drop]
            generalize hc : recv_count t.plan (min BUF n) = c at k1 k2 hl hinp
            have hrem : (n + WORD - c) % WORD = n - c := by
              have e : n + WORD - c = (n - c) + WORD := by omega
              rw [e, Nat.add_mod_right, Nat.mod_eq_of_lt (by omega)]
            unfold recv_body
            simp only [h0, if_false, hreq, hl, hrem]
            have hz : ¬ c = 0 := by omega
            simp only [hz, if_false]
            exact ih g _ _ _ _ (by omega) (by omega) (by omega) (by rw [hinp]; omega)
    exact gen fuel size s size 0 [] hf (Nat.le_refl _) hw (by omega)
  refine ⟨hplan, by rw [e1], by rw [e1], by rw [e1], ?_, recv_body_log_result _ _ _ _ _ _,
    ?_, r2, ?_⟩
  · rw [e1]
    simp only [cipher_length, hb]
  · intro e he
    obtain ⟨a1, a2, a3, a4, -⟩ := r3 e he
    exact ⟨a1, r1 e he, a2, a3, a4⟩
  · intro t ht
    obtain ⟨p3, e3⟩ := recv_body_account cfg fuel t size 0 [] hf hw
    rw [e3] at ht ⊢
    have hle : size ≤ t.inp.length := by simpa using ht
    have hm : min size t.inp.length = size := Nat.min_eq_left hle
    simp only [hm, List.nil_append, cipher_length, List.length_take]
    exact ⟨hle, trivial, trivial⟩

/-- Witness for C13: five body bytes followed by a `Q`, the transport handing
over two bytes, then one, then the rest; the loop bound is 9. -/
theorem recv_loop_accounting_witness :
    recv_body ⟨false, []⟩ 9 ⟨str "helloQ", [2, 1], [], none⟩ 5 0 [] =
      (⟨str "Q", [], [], none⟩, str "hello", true) ∧
    (recv_body_log ⟨false, []⟩ 9 ⟨str "helloQ", [2, 1], [], none⟩ 5 0 []).2 =
      [(5, 5, 2), (3, 3, 1), (2, 2, 2)] :=
  have h := recv_loop_accounting ⟨false, []⟩ ⟨str "helloQ", [2, 1], [], none⟩ 5 9
    (str "hello") (str "Q") (by decide) (by decide) (by decide) (by decide)
  ⟨h.1.trans (by decide), by decide⟩

/-! ## Claims about PUT -/

theorem open_then_write (g : FileSys) (name bytes : List Byte)
    (h : (open_write g name).2 = true) :
    file_content (write_file (open_write g name).1 name bytes) name = some bytes := by
  have hd : g.dir_exists = true := by
    by_cases hx : g.dir_exists = true
    · exact hx
    · simp [open_write, find_entry, hx] at h
  cases hf : find_entry g name with
  | none =>
    have hc : g.can_create = true := by
      by_cases hx : g.can_create = true
      · exact hx
      · simp [open_write, hf, hx] at h
    have e1 : open_write g name =
        ({ g with entries := set_entry name (Node.regular [] true true) g.entries }, true) := by
      simp [open_write, hf, hd, hc]
    rw [e1]
    simp [write_file, file_content, find_entry, hd, lookup_set_entry]
  | some node =>
    cases node with
    | other => simp [open_write, hf] at h
    | regular c r wr =>
      have hwr : wr = true := by
        by_cases hx : wr = true
        · exact hx
        · simp [open_write, hf, hx] at h
      subst hwr
      have e1 : open_write g name =
          ({ g with entries := set_entry name (Node.regular [] r true) g.entries }, true) := by
        simp [open_write, hf]
      rw [e1]
      simp [write_file, file_content, find_entry, hd, lookup_set_entry]

theorem ensured_cases (w : Server) :
    (if w.fs.dir_exists = true then w.note [FsCall.dir_exists]
      else { w.note [FsCall.dir_exists, FsCall.create_directory] with
             fs := create_directory w.fs }) =
      { w with fs := ensured w.fs,
               log := w.log ++ (if w.fs.dir_exists = true then [FsCall.dir_exists]
                 else [FsCall.dir_exists, FsCall.create_directory]) } := by
  by_cases hd : w.fs.dir_exists = true
  · simp [hd, ensured, Server.note]
  · simp [hd, ensured, Server.note]

/-- C14: for every accepted `PUT` (non-empty path-safe name, destination
opened) with declared size `s < 2^64`, if the peer's stream ends after `m < s`
body bytes, `handle_put` sends nothing after the ready `OK`, the destination
file holds exactly the `m` received bytes after cipher reversal, and the next
round of `handle_client` reads the empty line, leaves the loop and closes the
connection without sending anything. -/
theorem put_underrun (users : Users) (cfg : Config) (w : Server) (name body : List Byte)
    (size fuel : Nat) (hne : name ≠ []) (hsl : has_slash name = false)
    (hdd : has_dotdot name = false) (hroom : w.sock.room = none) (hs : w.sock.inp = body)
    (hm : body.length < size) (hw : size < WORD)
    (hopen : (open_write (ensured w.fs) name).2 = true) :
    (handle_put cfg w name size).sock.out = w.sock.out ++ (str "OK" ++ [NL]) ∧
    file_content (handle_put cfg w name size).fs name = some (cipher cfg body 0).1 ∧
    (cipher cfg body 0).1.length = body.length ∧
    (handle_put cfg w name size).sock.inp = [] ∧
    (handle_line users cfg (handle_put cfg w name size)).2 = false ∧
    (handle_client users cfg (fuel + 1) (handle_put cfg w name size)).closed = true ∧
    (handle_client users cfg (fuel + 1) (handle_put cfg w name size)).sock.out =
      w.sock.out ++ (str "OK" ++ [NL]) := by
  have he : name.isEmpty = false := line_nonempty _ hne
  obtain ⟨plan, hp⟩ := recv_body_account cfg size
    ⟨w.sock.inp, w.sock.plan, w.sock.out ++ (str "OK" ++ [NL]), none⟩ size 0 []
    (Nat.le_refl size) hw
  have hmin : min size body.length = body.length := by omega
  have hdec : decide (size ≤ body.length) = false := by
    simp only [decide_eq_false_iff_not]; omega
  simp only [hs, hmin, List.drop_length, List.take_length, hdec, List.nil_append] at hp
  have key : handle_put cfg w name size =
      { sock := { inp := [], plan := plan, out := w.sock.out ++ (str "OK" ++ [NL]), room := none },
        fs := write_file (open_write (ensured w.fs) name).1 name (cipher cfg body 0).1,
        log := w.log ++ (if w.fs.dir_exists = true then [FsCall.dir_exists]
          else [FsCall.dir_exists, FsCall.create_directory]) ++ [FsCall.open_write name],
        authed := w.authed, closed := w.closed } := by
    unfold handle_put
    simp only [he, hsl, hdd, Bool.false_eq_true, if_false, Bool.or_false, ensured_cases]
    simp only [Server.send, Server.note, send_line_open _ _ hroom, Bool.not_true,
      Bool.false_eq_true, if_false, hopen, hs, hp, hroom, Bool.not_false, if_true]
  have hline : handle_line users cfg (handle_put cfg w name size) =
      (silent (handle_put cfg w name size), false) := by
    rw [key]
    simp [handle_line, silent, recv_line, recv_line_loop]
  have hrun : handle_client users cfg (fuel + 1) (handle_put cfg w name size) =
      { silent (handle_put cfg w name size) with closed := true } := by
    simp only [handle_client, hline, Bool.false_eq_true, if_false]
  refine ⟨by rw [key], ?_, cipher_length cfg body 0, by rw [key], by rw [hline], by rw [hrun],
    ?_⟩
  · rw [key]
    exact open_then_write (ensured w.fs) name _ hopen
  · rw [hrun]
    show (silent (handle_put cfg w name size)).sock.out = _
    rw [(silent_facts _).1, key]

/-- Witness for C14: `size = 8` declared, the stream ends after `hello`, key
`k`: only the ready `OK` goes out and the file holds the five bytes
deciphered. -/
theorem put_underrun_witness :
    (handle_put ⟨true, str "k"⟩
      ⟨⟨(cipher ⟨true, str "k"⟩ (str "hello") 0).1, [2], [], none⟩, ⟨true, true, []⟩, [], true,
        false⟩ (str "f") 8).sock.out = str "OK\n" ∧
    file_content (handle_put ⟨true, str "k"⟩
      ⟨⟨(cipher ⟨true, str "k"⟩ (str "hello") 0).1, [2], [], none⟩, ⟨true, true, []⟩, [], true,
        false⟩ (str "f") 8).fs (str "f") = some (str "hello") :=
  have h := put_underrun [] ⟨true, str "k"⟩
    ⟨⟨(cipher ⟨true, str "k"⟩ (str "hello") 0).1, [2], [], none⟩, ⟨true, true, []⟩, [], true,
      false⟩ (str "f") (cipher ⟨true, str "k"⟩ (str "hello") 0).1 8 0
    (by decide) (by decide) (by decide) rfl rfl (by decide) (by decide) (by decide)
  ⟨h.1.trans (by decide), h.2.1.trans (by decide)⟩

theorem open_write_failed (g : FileSys) (name : List Byte) (h : (open_write g name).2 = false) :
    (open_write g name).1 = g := by
  unfold open_write at h ⊢
  cases hf : find_entry g name with
  | none =>
    rw [hf] at h
    simp only [] at h ⊢
    by_cases hx : (g.dir_exists && g.can_create) = true
    · simp [hx] at h
    · simp [hx]
  | some node =>
    cases node with
    | other => rfl
    | regular c r wr =>
      rw [hf] at h
      simp only [] at h ⊢
      by_cases hx : wr = true
      · simp [hx] at h
      · simp [hx]

/-- C20: for every accepted `PUT` (non-empty path-safe name, parsed size `s`,
whatever `s` is) for which opening the destination for writing fails, the
complete output of `handle_put` is the ready line `OK` followed by the line
`ERR cannot create`; no `recv` is made, so no body byte is taken from the
connection; and the round returns to the command loop, whose next round reads
its line from what the client sent after the header. -/
theorem put_open_failure (users : Users) (cfg : Config) (w : Server) (fuel : Nat)
    (hline : (recv_line w.sock).1 ≠ []) (hauth : w.authed = true)
    (hcmd : command_of (recv_line w.sock).1 = str "PUT")
    (hf : arg1_of (recv_line w.sock).1 ≠ [])
    (hsize : (size_of (recv_line w.sock).1).2.fail = false)
    (hsl : has_slash (arg1_of (recv_line w.sock).1) = false)
    (hdd : has_dotdot (arg1_of (recv_line w.sock).1) = false)
    (hroom : w.sock.room = none)
    (hopen : (open_write (ensured w.fs) (arg1_of (recv_line w.sock).1)).2 = false) :
    (handle_line users cfg w).1.sock.out =
      w.sock.out ++ (str "OK" ++ [NL]) ++ (str "ERR cannot create" ++ [NL]) ∧
    (handle_line users cfg w).1.sock.inp = (recv_line w.sock).2.inp ∧
    (handle_line users cfg w).1.sock.plan = (recv_line w.sock).2.plan ∧
    (handle_line users cfg w).1.fs = ensured w.fs ∧
    (handle_line users cfg w).2 = true ∧
    handle_client users cfg (fuel + 1) w =
      handle_client users cfg fuel (handle_line users cfg w).1 := by
  obtain ⟨f1, f2, f3, f4, f5, f6, f7⟩ := silent_facts w
  have hd := dispatch_put users cfg w hline hauth hcmd hf hsize
  have he := line_nonempty _ hf
  have hroom2 : (silent w).sock.room = none := f2.trans hroom
  have hopen2 : (open_write (ensured (silent w).fs) (arg1_of (recv_line w.sock).1)).2 = false :=
    hopen
  have hfs := open_write_failed _ _ hopen2
  have key : handle_put cfg (silent w) (arg1_of (recv_line w.sock).1)
        (size_of (recv_line w.sock).1).1 =
      { sock := { (silent w).sock with
          out := (silent w).sock.out ++ (str "OK" ++ [NL]) ++ (str "ERR cannot create" ++ [NL]) },
        fs := ensured (silent w).fs,
        log := (silent w).log ++ (if (silent w).fs.dir_exists = true then [FsCall.dir_exists]
          else [FsCall.dir_exists, FsCall.create_directory]) ++
            [FsCall.open_write (arg1_of (recv_line w.sock).1)],
        authed := (silent w).authed, closed := (silent w).closed } := by
    unfold handle_put
    simp only [he, hsl, hdd, Bool.false_eq_true, if_false, Bool.or_false, ensured_cases]
    simp only [Server.send, Server.note, send_line_open _ _ hroom2, Bool.not_true,
      Bool.false_eq_true, if_false, hopen2, hfs, Bool.not_false, if_true, send_line, send_all,
      hroom2, List.append_assoc]
  have hcont : (handle_line users cfg w).2 = true := by rw [hd]
  refine ⟨?_, ?_, ?_, ?_, hcont, ?_⟩
  · rw [hd, key]; simp only [f1]
  · rw [hd, key]; rfl
  · rw [hd, key]; rfl
  · rw [hd, key]; rfl
  · simp only [handle_client, hcont, if_true]

/-- Witness for C20: `x` is a directory, the client sends `PUT x 5` and then,
as the body, the five bytes `LIST` and a newline; the server answers
`OK`, `ERR cannot create`, and then answers the body as the command `LIST`. -/
theorem put_open_failure_witness :
    (handle_line [] ⟨false, []⟩
      ⟨⟨str "PUT x 5\nLIST\n", [], [], none⟩, ⟨true, true, [(str "x", Node.other)]⟩, [], true,
        false⟩).1.sock.out = str "OK\nERR cannot create\n" ∧
    (handle_client [] ⟨false, []⟩ 3
      ⟨⟨str "PUT x 5\nLIST\n", [], [], none⟩, ⟨true, true, [(str "x", Node.other)]⟩, [], true,
        false⟩).sock.out = str "OK\nERR cannot create\nOK\nEND\n" :=
  have h := put_open_failure [] ⟨false, []⟩
    ⟨⟨str "PUT x 5\nLIST\n", [], [], none⟩, ⟨true, true, [(str "x", Node.other)]⟩, [], true,
      false⟩ 2 (by decide) rfl (by decide) (by decide) (by decide) (by decide) (by decide) rfl
    (by decide)
  ⟨h.1.trans (by decide), by decide⟩

/-! ## Claims about unknown commands and LIST -/

/-- C15 (as amended): for every Authenticated session and every line read
whose command token is none of `AUTH`, `LIST`, `GET`, `PUT`, `QUIT` and
`SELECT`, the server replies exactly `ERR unknown`; the session state is
unchanged, nothing else happens and the loop goes on. -/
theorem unknown_command (users : Users) (cfg : Config) (w : Server)
    (hline : (recv_line w.sock).1 ≠ []) (hauth : w.authed = true)
    (h1 : command_of (recv_line w.sock).1 ≠ str "AUTH")
    (h2 : command_of (recv_line w.sock).1 ≠ str "LIST")
    (h3 : command_of (recv_line w.sock).1 ≠ str "GET")
    (h4 : command_of (recv_line w.sock).1 ≠ str "PUT")
    (h5 : command_of (recv_line w.sock).1 ≠ str "QUIT")
    (h6 : command_of (recv_line w.sock).1 ≠ str "SELECT") :
    handle_line users cfg w = (reply w (str "ERR unknown"), true) ∧
    (handle_line users cfg w).1.authed = true ∧
    (handle_line users cfg w).1.fs = w.fs ∧
    (handle_line users cfg w).1.log = w.log ∧
    (w.sock.room = none →
      (handle_line users cfg w).1.sock.out = w.sock.out ++ (str "ERR unknown" ++ [NL])) := by
  have hnonempty := line_nonempty _ hline
  have key : handle_line users cfg w = (reply w (str "ERR unknown"), true) := by
    unfold command_of at h1 h2 h3 h4 h5 h6
    simp only [handle_line, hnonempty, Bool.false_eq_true, if_false, h1, h2, h3, h4, h5, h6,
      hauth, Bool.not_true, reply, Server.send]
  refine ⟨key, ?_, ?_, ?_, ?_⟩
  · rw [key]; exact hauth
  · rw [key]; rfl
  · rw [key]; rfl
  · intro hroom
    rw [key]
    exact reply_out w _ hroom

/-- Witness for C15: the line `HELLO there` in an Authenticated session. -/
theorem unknown_command_witness :
    handle_line [] ⟨false, []⟩
      ⟨⟨str "HELLO there\n", [], [], none⟩, ⟨true, true, []⟩, [], true, false⟩ =
    (⟨⟨[], [], str "ERR unknown\n", none⟩, ⟨true, true, []⟩, [], true, false⟩, true) :=
  have h := unknown_command [] ⟨false, []⟩
    ⟨⟨str "HELLO there\n", [], [], none⟩, ⟨true, true, []⟩, [], true, false⟩
    (by decide) rfl (by decide) (by decide) (by decide) (by decide) (by decide) (by decide)
  h.1.trans (by decide)

/-- C15 fails as stated: `SELECT` is none of `AUTH`, `LIST`, `GET`, `PUT`,
`QUIT`, and the server answers `SELECT notes.txt` with `OK Selected notes.txt`
and a bare `SELECT` with `ERR No filename provided`, not with `ERR unknown`. -/
theorem unknown_command_counterexample :
    command_of (str "SELECT notes.txt") = str "SELECT" ∧
    (handle_line [] ⟨false, []⟩
      ⟨⟨str "SELECT notes.txt\n", [], [], none⟩, ⟨true, true, []⟩, [], true, false⟩).1.sock.out =
      str "OK Selected notes.txt\n" ∧
    (handle_line [] ⟨false, []⟩
      ⟨⟨str "SELECT\n", [], [], none⟩, ⟨true, true, []⟩, [], true, false⟩).1.sock.out =
      str "ERR No filename provided\n" := by
  decide

theorem send_lines_eq (inp : List Byte) (plan : List Nat) (out : List Byte)
    (ls : List (List Byte)) :
    send_lines ⟨inp, plan, out, none⟩ ls = ⟨inp, plan, out ++ name_lines ls, none⟩ := by
  induction ls generalizing out with
  | nil => simp [send_lines, name_lines]
  | cons l ls ih =>
    simp only [send_lines, send_line_eq]
    rw [ih]
    simp [name_lines]

theorem regular_names_eq (es : List (List Byte × Node)) :
    regular_names es = (es.filter (fun e => is_regular e.2)).map (fun e => e.1) := by
  induction es with
  | nil => rfl
  | cons e es ih =>
    obtain ⟨k, v⟩ := e
    cases v with
    | regular c r wr => simp [regular_names, is_regular, ih]
    | other => simp [regular_names, is_regular, ih]

theorem handle_list_out (w : Server) (hroom : w.sock.room = none) :
    (handle_list w).sock.out = w.sock.out ++ (str "OK" ++ [NL]) ++
      (if w.fs.dir_exists = true then name_lines (regular_names w.fs.entries) else []) ++
      (str "END" ++ [NL]) ∧
    (handle_list w).sock.inp = w.sock.inp ∧ (handle_list w).fs = w.fs ∧
    (handle_list w).authed = w.authed := by
  obtain ⟨⟨i, p, o, r⟩, fs, log, a, c⟩ := w
  simp only at hroom
  subst hroom
  by_cases hd : fs.dir_exists = true
  · simp only [handle_list, Server.send, Server.note, send_line_eq, hd, if_true, send_lines_eq,
      List.append_assoc, and_self]
  · simp only [handle_list, Server.send, Server.note, send_line_eq, hd, if_false,
      List.append_assoc, List.nil_append, and_self, Bool.false_eq_true]

/-- C16: for every Authenticated session and every line read whose command
token is `LIST`, the complete output of the round is the line `OK`, then one
line for each entry of the shared directory that is a regular file, in the
order of enumeration and with no line for any other entry, then the line
`END`; for an empty (or missing) directory it is `OK` immediately followed by
`END`.  (The peer stays connected.) -/
theorem list_framing (users : Users) (cfg : Config) (w : Server)
    (hline : (recv_line w.sock).1 ≠ []) (hauth : w.authed = true)
    (hcmd : command_of (recv_line w.sock).1 = str "LIST")
    (hroom : w.sock.room = none) :
    (handle_line users cfg w).1.sock.out = w.sock.out ++ (str "OK" ++ [NL]) ++
      (if w.fs.dir_exists = true then
        name_lines ((w.fs.entries.filter (fun e => is_regular e.2)).map (fun e => e.1))
       else []) ++ (str "END" ++ [NL]) ∧
    ((w.fs.dir_exists = false ∨ w.fs.entries = []) →
      (handle_line users cfg w).1.sock.out = w.sock.out ++ (str "OK" ++ [NL]) ++
        (str "END" ++ [NL])) ∧
    (handle_line users cfg w).1.sock.inp = (recv_line w.sock).2.inp ∧
    (handle_line users cfg w).1.fs = w.fs ∧
    (handle_line users cfg w).2 = true := by
  obtain ⟨f1, f2, f3, -, -, -, f7⟩ := silent_facts w
  have hd := dispatch_list users cfg w hline hauth hcmd
  obtain ⟨o1, o2, o3, -⟩ := handle_list_out (silent w) (f2.trans hroom)
  rw [f1, f3, regular_names_eq] at o1
  have hout : (handle_line users cfg w).1.sock.out = w.sock.out ++ (str "OK" ++ [NL]) ++
      (if w.fs.dir_exists = true then
        name_lines ((w.fs.entries.filter (fun e => is_regular e.2)).map (fun e => e.1))
       else []) ++ (str "END" ++ [NL]) := by
    rw [hd]; exact o1
  refine ⟨hout, ?_, by rw [hd]; exact o2.trans f7, by rw [hd]; exact o3, by rw [hd]⟩
  intro hempty
  rw [hout]
  rcases hempty with h | h
  · simp [h]
  · simp [h, name_lines]

/-- Witness for C16: a directory holding the file `a`, a sub-directory `d` and
the file `b`. -/
theorem list_framing_witness :
    (handle_line [] ⟨false, []⟩
      ⟨⟨str "LIST\n", [], [], none⟩,
        ⟨true, true, [(str "a", Node.regular [1] true true), (str "d", Node.other),
          (str "b", Node.regular [] true true)]⟩, [], true, false⟩).1.sock.out =
      str "OK\na\nb\nEND\n" :=
  have h := list_framing [] ⟨false, []⟩
    ⟨⟨str "LIST\n", [], [], none⟩,
      ⟨true, true, [(str "a", Node.regular [1] true true), (str "d", Node.other),
        (str "b", Node.regular [] true true)]⟩, [], true, false⟩
    (by decide) rfl (by decide) rfl
  h.1.trans (by decide)

/-! ## The session flag -/

theorem handle_list_authed (w : Server) : (handle_list w).authed = w.authed := by
  unfold handle_list Server.send Server.note
  simp only []
  split <;> rfl

theorem handle_get_authed (cfg : Config) (w : Server) (f : List Byte) :
    (handle_get cfg w f).authed = w.authed := by
  unfold handle_get Server.send Server.note
  simp only []
  split
  · rfl
  · split
    · rfl
    · rfl
    · split
      · rfl
      · split <;> rfl

theorem handle_put_authed (cfg : Config) (w : Server) (f : List Byte) (n : Nat) :
    (handle_put cfg w f n).authed = w.authed := by
  unfold handle_put
  simp only [ensured_cases, Server.send, Server.note]
  repeat' split
  all_goals rfl

theorem handle_line_authed (users : Users) (cfg : Config) (w : Server) :
    (handle_line users cfg w).1.authed =
      (w.authed || good_auth users (recv_line w.sock).1) := by
  by_cases hl : (recv_line w.sock).1.isEmpty = true
  · simp [handle_line, good_auth, hl]
  · have hl2 : (recv_line w.sock).1.isEmpty = false := by simpa using hl
    by_cases hc : command_of (recv_line w.sock).1 = str "AUTH"
    · by_cases hu : users.lookup (arg1_of (recv_line w.sock).1) =
          some (arg2_of (recv_line w.sock).1)
      · have hg : good_auth users (recv_line w.sock).1 = true := by
          simp [good_auth, hl2, hc, hu]
        rw [hg, Bool.or_true]
        unfold command_of at hc
        unfold arg1_of arg2_of after_command at hu
        simp only [handle_line, hl2, Bool.false_eq_true, if_false, hc, if_true, hu, Server.send]
      · have hg : good_auth users (recv_line w.sock).1 = false := by
          simp [good_auth, hl2, hc, hu]
        rw [hg, Bool.or_false]
        unfold command_of at hc
        unfold arg1_of arg2_of after_command at hu
        simp only [handle_line, hl2, Bool.false_eq_true, if_false, hc, if_true, hu, Server.send]
    · have hg : good_auth users (recv_line w.sock).1 = false := by
        simp [good_auth, hl2, hc]
      rw [hg, Bool.or_false]
      unfold command_of at hc
      simp only [handle_line, hl2, Bool.false_eq_true, if_false, hc, Server.send]
      split
      · rfl
      · split
        · exact handle_list_authed _
        · split
          · split
            · rfl
            · exact handle_get_authed _ _ _
          · split
            · split
              · rfl
              · exact handle_put_authed _ _ _ _
            · split
              · rfl
              · split
                · split <;> rfl
                · rfl

theorem handle_client_authed (users : Users) (cfg : Config) (fuel : Nat) (w : Server) :
    (handle_client users cfg fuel w).authed =
      (w.authed || (lines_read users cfg fuel w).any (good_auth users)) := by
  induction fuel generalizing w with
  | zero => simp [handle_client, lines_read]
  | succ f ih =>
    by_cases hc : (handle_line users cfg w).2 = true
    · simp only [handle_client, lines_read, hc, if_true, ih, handle_line_authed, List.any_cons,
        Bool.or_assoc]
    · simp only [handle_client, lines_read, hc, if_false, handle_line_authed, List.any_cons,
        List.any_nil, Bool.or_false, Bool.false_eq_true]

/-- C17: for every credential store and every run of `handle_client` on one
connection, whatever the stream, the flag `authed` starts false, and after the
run it is true if and only if one of the lines the rounds read was an `AUTH`
line carrying a user found in the store with a password equal to the stored
one; a round sets the flag only on such a line and no round resets it. -/
theorem session_flag (users : Users) (cfg : Config) (fuel : Nat) (sock : Sock) (fs : FileSys)
    (log : List FsCall) :
    (session_start sock fs log).authed = false ∧
    ((handle_client users cfg fuel (session_start sock fs log)).authed = true ↔
      ∃ line ∈ lines_read users cfg fuel (session_start sock fs log),
        line ≠ [] ∧ command_of line = str "AUTH" ∧
          users.lookup (arg1_of line) = some (arg2_of line)) ∧
    (∀ w : Server, (handle_line users cfg w).1.authed = true →
      w.authed = true ∨ (command_of (recv_line w.sock).1 = str "AUTH" ∧
        users.lookup (arg1_of (recv_line w.sock).1) = some (arg2_of (recv_line w.sock).1))) ∧
    (∀ w : Server, w.authed = true → (handle_line users cfg w).1.authed = true) ∧
    (∀ (w : Server) (f : Nat), w.authed = true → (handle_client users cfg f w).authed = true) := by
  have hgood : ∀ line, good_auth users line = true ↔
      (line ≠ [] ∧ command_of line = str "AUTH" ∧
        users.lookup (arg1_of line) = some (arg2_of line)) := by
    intro line
    cases line with
    | nil => simp [good_auth]
    | cons a l => simp [good_auth]
  refine ⟨rfl, ?_, ?_, ?_, ?_⟩
  · rw [handle_client_authed]
    simp only [session_start, Bool.false_or, List.any_eq_true, hgood]
  · intro w h
    rw [handle_line_authed] at h
    simp only [Bool.or_eq_true] at h
    rcases h with h | h
    · exact Or.inl h
    · exact Or.inr ((hgood _).1 h).2
  · intro w h
    rw [handle_line_authed, h, Bool.true_or]
  · intro w f h
    rw [handle_client_authed, h, Bool.true_or]

/-! ## The listing, server to client -/

theorem name_lines_cons (n : List Byte) (ns : List (List Byte)) (rest : List Byte) :
    name_lines (n :: ns) ++ rest = n ++ NL :: (name_lines ns ++ rest) := by
  simp [name_lines]

theorem name_lines_length (ns : List (List Byte)) : ns.length ≤ (name_lines ns).length := by
  induction ns with
  | nil => simp
  | cons n ns ih =>
    have h := name_lines_cons n ns []
    simp only [List.append_nil] at h
    rw [h]
    simp only [List.length_append, List.length_cons]
    omega

theorem list_loop_names (pre : List (List Byte)) (tail : List Byte) (fuel : Nat)
    (plan : List Nat) (out : List Byte) (room : Option Nat) (acc : List (List Byte))
    (hpre : ∀ n ∈ pre, Listable n) (hf : pre.length < fuel) :
    ∃ plan2, list_loop fuel ⟨name_lines pre ++ (str "END" ++ NL :: tail), plan, out, room⟩ acc =
      (⟨tail, plan2, out, room⟩, acc ++ pre) := by
  induction pre generalizing fuel plan acc with
  | nil =>
    cases fuel with
    | zero => simp at hf
    | succ f =>
      have hnl : ∀ c ∈ str "END", c ≠ NL := by decide
      refine ⟨plan.drop ((str "END").length + 1), ?_⟩
      simp only [name_lines, List.map_nil, List.flatten_nil, List.nil_append, list_loop,
        recv_line_eq _ _ _ _ _ hnl, Bool.or_eq_true, decide_eq_true_eq, true_or, if_true,
        List.append_nil]
  | cons n pre ih =>
    cases fuel with
    | zero => simp at hf
    | succ f =>
      obtain ⟨h1, h2, h3⟩ := hpre n (by simp)
      obtain ⟨plan2, hp⟩ := ih f (plan.drop (n.length + 1)) (acc ++ [n])
        (fun m hm => hpre m (by simp [hm])) (by simpa using hf)
      refine ⟨plan2, ?_⟩
      have hemp : n.isEmpty = false := line_nonempty n h1
      simp only [name_lines_cons, list_loop, recv_line_eq _ _ _ _ _ h3, h2, hemp,
        Bool.or_eq_true, decide_eq_true_eq, Bool.false_eq_true, or_self, if_false, hp,
        List.append_assoc, List.singleton_append]

theorem do_list_reads (p : List Nat) (old pre : List (List Byte)) (tail : List Byte)
    (hpre : ∀ n ∈ pre, Listable n) :
    ∃ plan2, do_list (fresh (str "OK" ++ [NL] ++ name_lines pre ++ (str "END" ++ NL :: tail)) p)
        old = (⟨tail, plan2, str "LIST" ++ [NL], none⟩, pre, true) := by
  have hok : ∀ c ∈ str "OK", c ≠ NL := by decide
  have hsw : starts_with (str "OK") (str "OK") = true := by decide
  have hin : str "OK" ++ [NL] ++ name_lines pre ++ (str "END" ++ NL :: tail) =
      str "OK" ++ NL :: (name_lines pre ++ (str "END" ++ NL :: tail)) := by simp
  obtain ⟨plan2, hp⟩ := list_loop_names pre tail
    ((name_lines pre ++ (str "END" ++ NL :: tail)).length + 1)
    (p.drop ((str "OK").length + 1)) (str "LIST" ++ [NL]) none [] hpre
    (by have := name_lines_length pre
        simp only [List.length_append]
        omega)
  refine ⟨plan2, ?_⟩
  simp only [do_list, fresh, send_line_eq, hin, recv_line_eq _ _ _ _ _ hok, hsw, hp,
    Bool.not_true, Bool.false_eq_true, if_false, List.nil_append]

theorem list_reply_eq (users : Users) (cfg : Config) (fs : FileSys) (plan : List Nat)
    (hd : fs.dir_exists = true) :
    list_reply users cfg fs plan =
      str "OK" ++ [NL] ++ name_lines (regular_names fs.entries) ++ (str "END" ++ [NL]) := by
  have hnl : ∀ c ∈ str "LIST", c ≠ NL := by decide
  have hr : recv_line (fresh (str "LIST" ++ [NL]) plan) =
      (str "LIST", ⟨[], plan.drop ((str "LIST").length + 1), [], none⟩) := by
    have := recv_line_eq (str "LIST") [] plan [] none hnl
    simpa [fresh] using this
  have hdisp := dispatch_list users cfg
    ⟨fresh (str "LIST" ++ [NL]) plan, fs, [], true, false⟩
    (by rw [hr]; exact (by decide : str "LIST" ≠ [])) rfl
    (by rw [hr]; exact (by decide : command_of (str "LIST") = str "LIST"))
  obtain ⟨o1, -, -, -⟩ := handle_list_out
    (silent ⟨fresh (str "LIST" ++ [NL]) plan, fs, [], true, false⟩)
    (by simp [silent, hr])
  unfold list_reply
  rw [hdisp, o1]
  simp [silent, hr, hd]

/-- C18: for every directory listing whose names are all non-empty, different
from `END` and free of newlines, `do_list` applied to the reply `handle_list`
produces returns true with `files` equal to exactly the listed names in the
same order, and it reads the reply to its end, the `END` line included.  When
some name equals `END`, `do_list` stops at the first such name: `files` holds
the names before it, and that name's successors and the real `END` line stay
unread. -/
theorem list_round_trip (users : Users) (cfg : Config) (fs : FileSys) (p1 p2 : List Nat)
    (old : List (List Byte)) (hd : fs.dir_exists = true) :
    ((∀ n ∈ regular_names fs.entries, Listable n) →
      (do_list (fresh (list_reply users cfg fs p1) p2) old).2 =
        (regular_names fs.entries, true) ∧
      (do_list (fresh (list_reply users cfg fs p1) p2) old).1.inp = [] ∧
      (do_list (fresh (list_reply users cfg fs p1) p2) old).1.out = str "LIST" ++ [NL]) ∧
    (∀ pre post : List (List Byte), regular_names fs.entries = pre ++ str "END" :: post →
      (∀ n ∈ pre, Listable n) →
      (do_list (fresh (list_reply users cfg fs p1) p2) old).2 = (pre, true) ∧
      (do_list (fresh (list_reply users cfg fs p1) p2) old).1.inp =
        name_lines post ++ (str "END" ++ [NL])) := by
  rw [list_reply_eq users cfg fs p1 hd]
  constructor
  · intro hall
    obtain ⟨plan2, hp⟩ := do_list_reads p2 old (regular_names fs.entries) [] hall
    have e : str "OK" ++ [NL] ++ name_lines (regular_names fs.entries) ++ (str "END" ++ [NL]) =
        str "OK" ++ [NL] ++ name_lines (regular_names fs.entries) ++ (str "END" ++ NL :: []) :=
      rfl
    rw [e, hp]
    exact ⟨rfl, rfl, rfl⟩
  · intro pre post hsplit hall
    obtain ⟨plan2, hp⟩ := do_list_reads p2 old pre (name_lines post ++ (str "END" ++ [NL])) hall
    have e : str "OK" ++ [NL] ++ name_lines (regular_names fs.entries) ++ (str "END" ++ [NL]) =
        str "OK" ++ [NL] ++ name_lines pre ++
          (str "END" ++ NL :: (name_lines post ++ (str "END" ++ [NL]))) := by
      rw [hsplit]
      simp [name_lines]
    rw [e, hp]
    exact ⟨rfl, rfl⟩

/-- Witness for C18: the directory holds `a`, `END` and `b`; the client's
list is `a` alone, and `b` with the real `END` line stay unread. -/
theorem list_round_trip_witness :
    (do_list (fresh (list_reply [] ⟨false, []⟩
      ⟨true, true, [(str "a", Node.regular [] true true), (str "END", Node.regular [] true true),
        (str "b", Node.regular [] true true)]⟩ []) []) []).2 = ([str "a"], true) ∧
    (do_list (fresh (list_reply [] ⟨false, []⟩
      ⟨true, true, [(str "a", Node.regular [] true true), (str "END", Node.regular [] true true),
        (str "b", Node.regular [] true true)]⟩ []) []) []).1.inp = str "b\nEND\n" :=
  have h := (list_round_trip [] ⟨false, []⟩
    ⟨true, true, [(str "a", Node.regular [] true true), (str "END", Node.regular [] true true),
      (str "b", Node.regular [] true true)]⟩ [] [] [] rfl).2 [str "a"] [str "b"] (by decide)
    (by decide)
  ⟨h.1, h.2.trans (by decide)⟩

/-! ## The transfer descriptor, sender to receiver -/

theorem put_header_parse (name : List Byte) (n : Nat) (hn : IsToken name) (hne : name ≠ [])
    (hw : n < WORD) :
    command_of (str "PUT " ++ name ++ str " " ++ dec n) = str "PUT" ∧
      arg1_of (str "PUT " ++ name ++ str " " ++ dec n) = name ∧
      size_of (str "PUT " ++ name ++ str " " ++ dec n) = (n, { buf := [], fail := false }) := by
  have hP : IsToken (str "PUT") := by decide
  have hPne : str "PUT" ≠ [] := by decide
  have t1 := (command_line (str "PUT") (name ++ 32 :: dec n) hP hPne).1
  obtain ⟨t2, t3⟩ := first_argument (str "PUT") name (dec n) hP hPne hn hne
  rw [← put_line_eq] at t1 t2 t3
  refine ⟨t1, t2, ?_⟩
  unfold size_of
  rw [t3]
  exact extract_u64_dec n hw

theorem do_put_header (cfg : Config) (p : List Nat) (b name : List Byte)
    (hlen : b.length < WORD) :
    (do_put cfg (fresh [] p) (some b) true name).1.out =
      str "PUT " ++ name ++ str " " ++ dec b.length ++ [NL] := by
  have hm : b.length % WORD = b.length := Nat.mod_eq_of_lt hlen
  simp [do_put, fresh, hm, send_line_eq, recv_line, recv_line_loop, starts_with, str]

/-- C19: for every non-empty remote name without white space and every size
`s < 2^64` (the length of the file sent): the header line `do_put` builds is
`PUT <name> <s>`; the server's parsing of that line yields the command `PUT`,
the filename `name` and the size `s` with the stream in a good state, and in
an Authenticated session `handle_client` calls `handle_put` with exactly
`(name, s)`; the header line `handle_get` builds for a file of `s` bytes is
`OK <s>`, which `do_get` accepts as a header and whose number it parses as
exactly `s`. -/
theorem descriptor_round_trip (users : Users) (cfg : Config) (name b : List Byte) (s : Nat)
    (p : List Nat) (hn : IsToken name) (hne : name ≠ []) (hs : s < WORD)
    (hb : b.length = s) :
    (do_put cfg (fresh [] p) (some b) true name).1.out =
      str "PUT " ++ name ++ str " " ++ dec s ++ [NL] ∧
    command_of (str "PUT " ++ name ++ str " " ++ dec s) = str "PUT" ∧
    arg1_of (str "PUT " ++ name ++ str " " ++ dec s) = name ∧
    size_of (str "PUT " ++ name ++ str " " ++ dec s) = (s, { buf := [], fail := false }) ∧
    (∀ (w : Server) (tail : List Byte), w.authed = true →
      w.sock.inp = str "PUT " ++ name ++ str " " ++ dec s ++ NL :: tail →
      handle_line users cfg w = (handle_put cfg (silent w) name s, true)) ∧
    (∀ (v : Server) (wr : Bool), v.sock.room = none →
      find_entry v.fs name = some (Node.regular b true wr) →
      has_slash name = false → has_dotdot name = false →
      (handle_get cfg v name).sock.out =
        v.sock.out ++ (str "OK " ++ dec s ++ [NL]) ++ (cipher cfg b 0).1) ∧
    starts_with (str "OK ") (str "OK " ++ dec s) = true ∧
    stoull ((str "OK " ++ dec s).drop 3) = some s := by
  subst hb
  obtain ⟨c1, c2, c3⟩ := put_header_parse name b.length hn hne hs
  have e3 : str "OK " = [79, 75, 32] := by decide
  refine ⟨do_put_header cfg p b name hs, c1, c2, c3, ?_, ?_, ?_, ?_⟩
  · intro w tail hauth hin
    exact (handle_line_put users cfg w name tail b.length hauth hn hne hs hin).1
  · intro v wr hroom hfile hsl hdd
    exact (handle_get_streams cfg v name b wr hsl hdd hroom hfile hs).1
  · rw [e3]; simp [starts_with]
  · have hdrop : (str "OK " ++ dec b.length).drop 3 = dec b.length := by
      rw [e3]; rfl
    rw [hdrop]
    exact stoull_dec _ hs

/-- Witness for C19: the name `notes.txt` and a file of 12 bytes. -/
theorem descriptor_round_trip_witness :
    (do_put ⟨false, []⟩ (fresh [] []) (some (str "hello, world")) true (str "notes.txt")).1.out =
      str "PUT " ++ str "notes.txt" ++ str " " ++ dec 12 ++ [NL] ∧
    size_of (str "PUT " ++ str "notes.txt" ++ str " " ++ dec 12) =
      (12, { buf := [], fail := false }) ∧
    stoull ((str "OK " ++ dec 12).drop 3) = some 12 :=
  have h := descriptor_round_trip [] ⟨false, []⟩ (str "notes.txt") (str "hello, world") 12 []
    (by decide) (by decide) (by decide) (by decide)
  ⟨h.1, h.2.2.2.1, h.2.2.2.2.2.2.2⟩

/-! ## The other error replies of GET -/

theorem get_missing_argument (users : Users) (cfg : Config) (w : Server)
    (hline : (recv_line w.sock).1 ≠ []) (hauth : w.authed = true)
    (hcmd : command_of (recv_line w.sock).1 = str "GET")
    (hf : arg1_of (recv_line w.sock).1 = []) :
    handle_line users cfg w = (reply w (str "ERR No filename"), true) := by
  have hnonempty := line_nonempty _ hline
  have he : (arg1_of (recv_line w.sock).1).isEmpty = true := by rw [hf]; rfl
  unfold arg1_of after_command at he
  unfold command_of at hcmd
  simp only [handle_line, hnonempty, Bool.false_eq_true, if_false, hcmd, hauth,
    Bool.not_true, he, reply, Server.send]
  simp only [show ¬ (str "GET" = str "AUTH") by decide,
    show ¬ (str "GET" = str "LIST") by decide, if_false, if_true]

theorem get_not_found (users : Users) (cfg : Config) (w : Server)
    (hline : (recv_line w.sock).1 ≠ []) (hauth : w.authed = true)
    (hcmd : command_of (recv_line w.sock).1 = str "GET")
    (hf : arg1_of (recv_line w.sock).1 ≠ [])
    (hsl : has_slash (arg1_of (recv_line w.sock).1) = false)
    (hdd : has_dotdot (arg1_of (recv_line w.sock).1) = false)
    (habsent : find_entry w.fs (arg1_of (recv_line w.sock).1) = none ∨
      find_entry w.fs (arg1_of (recv_line w.sock).1) = some Node.other) :
    (handle_line users cfg w).1.sock = (reply w (str "ERR not found")).sock ∧
    (handle_line users cfg w).1.fs = w.fs := by
  have hd := dispatch_get users cfg w hline hauth hcmd hf
  have hfs : (silent w).fs = w.fs := rfl
  rw [hd]
  rcases habsent with h | h
  · simp only [handle_get, hsl, hdd, Bool.or_false, Bool.false_eq_true, if_false, hfs, h,
      Server.send, Server.note, reply, silent, and_self]
  · simp only [handle_get, hsl, hdd, Bool.or_false, Bool.false_eq_true, if_false, hfs, h,
      Server.send, Server.note, reply, silent, and_self]

end FileShare
